/-
  Verification of the Universal Airlock review subsystem of
  enhanced-ai-agent-os-v2.

  The repository ships the airlock SQL schema (src/unnamed/part_017 and
  src/unnamed/part_018), REST/WebSocket documentation (src/README.md) and UI
  clients (src/ui/src/services/api.ts, AgentActivityStream.tsx,
  ChatInterface.jsx); the backend service implementing the Review Item
  Store, the Feedback & Revision Ledger and the Collaboration Hub is not
  part of the source tree.  Where a definition embeds that missing backend
  it is marked `Modelled from the spec:`; everything else is translated
  from the schema files and the UI sources.
-/
import Mathlib

namespace Airlock

/-- Item statuses, from the CHECK constraint on `airlock_items.status`
(src/unnamed/part_017 line 22):
`('pending_review', 'under_review', 'approved', 'rejected', 'revision_requested')`. -/
inductive Status
  | pending_review
  | under_review
  | approved
  | rejected
  | revision_requested
deriving DecidableEq, Repr

/-- `approved` and `rejected` are the terminal statuses (spec §4.2). -/
def Status.isTerminal : Status → Bool
  | .approved => true
  | .rejected => true
  | _ => false

/-- Modelled from the spec: the Review Item Store backend (spec §4.2) is not in
the source tree; these are exactly the allowed edges listed in §4.2. -/
def allowedEdge : Status → Status → Bool
  | .pending_review, .under_review => true
  | .pending_review, .approved => true
  | .pending_review, .rejected => true
  | .pending_review, .revision_requested => true
  | .under_review, .approved => true
  | .under_review, .rejected => true
  | .under_review, .revision_requested => true
  | .revision_requested, .pending_review => true
  | _, _ => false

/-- One step along an allowed edge of the §4.2 state machine. -/
def StatusStep (a b : Status) : Prop := allowedEdge a b = true

/-- Reachability along the §4.2 edges. -/
def ReachableStatus : Status → Status → Prop := Relation.ReflTransGen StatusStep

/-- A status-changing request against an item: claim it for review, approve,
reject (carrying the rejection reason), or request changes. -/
inductive Decision
  | claim
  | approve
  | reject (reason : String)
  | requestChanges
deriving DecidableEq, Repr

/-- The status a decision requests. -/
def Decision.target : Decision → Status
  | .claim => .under_review
  | .approve => .approved
  | .reject _ => .rejected
  | .requestChanges => .revision_requested

/-- The feedback record type a decision appends (spec §4.2: every successful
decision appends a Feedback record); claiming an item is not a decision.
Type names follow the CHECK constraint on `airlock_feedback.feedback_type`
(src/unnamed/part_017 line 65). -/
def Decision.feedbackType : Decision → Option String
  | .claim => none
  | .approve => some "approval"
  | .reject _ => some "rejection"
  | .requestChanges => some "revision_request"

/-- An airlock item, after the columns of `airlock_items`
(src/unnamed/part_017 lines 12-34); `version` models the
`updated_at` optimistic-concurrency token of spec §4.2. -/
structure AirlockItem where
  id : Nat
  sourceService : String
  sourceId : String
  contentType : String
  title : String
  content : String
  status : Status
  version : Nat
  reviewedBy : Option String
  rejectionReason : Option String
deriving DecidableEq, Repr

/-- Error taxonomy of spec §7.  `MissingRejectionReason` is the HTTP 400
refusal of a reject without a reason; `DuplicateSubmission` carries the id of
the existing open item the caller is pointed at. -/
inductive AirlockError
  | DuplicateSubmission (existingId : Nat)
  | InvalidTransition
  | Conflict
  | NotFound
  | MissingRejectionReason
deriving DecidableEq, Repr

/-- An audit event in the shape of spec §4.5 / api.ts `logEvent`
(src/ui/src/services/api.ts lines 139-158). -/
structure AuditEvent where
  eventType : String
  entityType : String
  entityId : Nat
  actorId : String
  action : String
deriving DecidableEq, Repr

/-- A revision row, after `airlock_revisions`
(src/unnamed/part_017 lines 77-89). -/
structure Revision where
  itemId : Nat
  revisionNumber : Nat
  newContent : String
  changesSummary : String
  createdBy : String
deriving DecidableEq, Repr

/-- Feedback statuses, from the CHECK constraint on `airlock_feedback.status`
(src/unnamed/part_017 line 70). -/
inductive FeedbackStatus
  | active
  | resolved
  | dismissed
deriving DecidableEq, Repr

/-- A feedback row, after `airlock_feedback`
(src/unnamed/part_017 lines 62-75). -/
structure Feedback where
  id : Nat
  itemId : Nat
  feedbackType : String
  providedBy : String
  status : FeedbackStatus
  resolvedBy : Option String
deriving DecidableEq, Repr

/-- The state owned by the Review Item Store and the Feedback & Revision
Ledger.  `auditLog` holds delivered audit events; `auditGaps` holds events
whose delivery to the external audit sink failed and that were logged as a
local audit gap (spec §4.5). -/
structure Store where
  items : List AirlockItem
  revisions : List Revision
  feedbackRecords : List Feedback
  auditLog : List AuditEvent
  auditGaps : List AuditEvent
  nextId : Nat
deriving DecidableEq, Repr

/-- The empty store. -/
def emptyStore : Store :=
  { items := [], revisions := [], feedbackRecords := [], auditLog := [],
    auditGaps := [], nextId := 0 }

/-- Modelled from the spec: the Audit Emitter (spec §4.5) is not in the source
tree.  `sink` abstracts the external audit collaborator (with its retries
already folded in); a failed delivery is recorded as a local audit gap and
never surfaces an error to the caller. -/
def emitAudit (sink : AuditEvent → Bool) (s : Store) (e : AuditEvent) : Store :=
  if sink e then { s with auditLog := s.auditLog ++ [e] }
  else { s with auditGaps := s.auditGaps ++ [e] }

/-- A rejection reason that trims to nothing: the guard the UI client applies
before issuing a reject (`!rejectionReason.trim()`,
src/ui/src/components/monitoring/AgentActivityStream.tsx line 504). -/
def isBlank (s : String) : Bool := s.data.all (fun c => c.isWhitespace)

/-- Look an item up by id. -/
def findItem (s : Store) (itemId : Nat) : Option AirlockItem :=
  s.items.find? (fun i => i.id == itemId)

/-- The first non-terminal (open) item for a `(sourceService, sourceId)`
pair, if any (spec §4.2 submission contract). -/
def findOpenItem (s : Store) (ss sid : String) : Option AirlockItem :=
  s.items.find? (fun i => i.sourceService == ss && i.sourceId == sid && !i.status.isTerminal)

/-- The number of stored items carrying a `(sourceService, sourceId)` pair
(the pair is UNIQUE in `airlock_items`, src/unnamed/part_017 line 33). -/
def countPair (s : Store) (ss sid : String) : Nat :=
  (s.items.filter (fun i => i.sourceService == ss && i.sourceId == sid)).length

/-- The item a fresh submission creates: `pending_review`, version 0. -/
def freshItem (s : Store) (ss sid ctype title content : String) : AirlockItem :=
  { id := s.nextId, sourceService := ss, sourceId := sid, contentType := ctype,
    title := title, content := content, status := .pending_review, version := 0,
    reviewedBy := none, rejectionReason := none }

/-- Revision 0, the original submission (spec §3). -/
def initialRevision (s : Store) (ss content : String) : Revision :=
  { itemId := s.nextId, revisionNumber := 0, newContent := content,
    changesSummary := "original submission", createdBy := ss }

/-- Modelled from the spec: `submit` of spec §4.2 (backend not in the source
tree).  Fails with `DuplicateSubmission` pointing at the existing open item
when the `(sourceService, sourceId)` pair already has a non-terminal item
(backed by the UNIQUE constraint of src/unnamed/part_017 line 33); otherwise
stores the item in `pending_review` and records revision 0, the original
submission (spec §3). -/
def submit (sink : AuditEvent → Bool) (s : Store) (ss sid ctype title content : String) :
    Except AirlockError Store :=
  match findOpenItem s ss sid with
  | some existing => .error (.DuplicateSubmission existing.id)
  | none =>
    .ok (emitAudit sink
      { s with
        items := s.items ++ [freshItem s ss sid ctype title content]
        revisions := s.revisions ++ [initialRevision s ss content]
        nextId := s.nextId + 1 }
      { eventType := "item_submitted", entityType := "airlock_item",
        entityId := s.nextId, actorId := ss, action := "submit" })

/-- Apply a replacement `f` to every item carrying `itemId`. -/
def updateItem (items : List AirlockItem) (itemId : Nat) (f : AirlockItem → AirlockItem) :
    List AirlockItem :=
  items.map (fun j => if j.id = itemId then f j else j)

/-- The item-level effect of a successful decision: move to the target status,
bump the version token, record the reviewer and any rejection reason. -/
def applyDecision (d : Decision) (actor : String) (j : AirlockItem) : AirlockItem :=
  { j with
    status := d.target
    version := j.version + 1
    reviewedBy := if (Decision.feedbackType d).isSome then some actor else j.reviewedBy
    rejectionReason := match d with | .reject r => some r | _ => j.rejectionReason }

/-- The store-level primary effect of a validated decision, before audit
emission: update the item and append the decision's feedback record
(spec §4.2). -/
def preDecision (s : Store) (itemId : Nat) (d : Decision) (actor : String) : Store :=
  let s1 := { s with items := updateItem s.items itemId (applyDecision d actor) }
  match Decision.feedbackType d with
  | some ft =>
    { s1 with
      feedbackRecords := s1.feedbackRecords ++
        [{ id := s1.nextId, itemId := itemId, feedbackType := ft, providedBy := actor,
           status := .active, resolvedBy := none }]
      nextId := s1.nextId + 1 }
  | none => s1

/-- Commit a validated decision: apply the primary effect and emit the
transition audit event. -/
def commitDecision (sink : AuditEvent → Bool) (s : Store) (itemId : Nat)
    (d : Decision) (actor : String) : Store :=
  emitAudit sink (preDecision s itemId d actor)
    { eventType := "status_transition", entityType := "airlock_item",
      entityId := itemId, actorId := actor, action := "decide" }

/-- Modelled from the spec: `decide` of spec §4.2 (backend not in the source
tree).  Optimistic concurrency: a stale `expectedVersion` fails with
`Conflict`; a request off the §4.2 edges fails with `InvalidTransition`; a
reject whose reason trims to empty is refused (HTTP 400, spec §7 — the UI
client enforces the same guard, AgentActivityStream.tsx line 504). -/
def decide (sink : AuditEvent → Bool) (s : Store) (itemId expectedVersion : Nat)
    (d : Decision) (actor : String) : Except AirlockError Store :=
  match findItem s itemId with
  | none => .error .NotFound
  | some item =>
    if item.version ≠ expectedVersion then .error .Conflict
    else if ¬ allowedEdge item.status (Decision.target d) = true then .error .InvalidTransition
    else match d with
      | .reject reason =>
        if isBlank reason then .error .MissingRejectionReason
        else .ok (commitDecision sink s itemId d actor)
      | _ => .ok (commitDecision sink s itemId d actor)

/-- The revision rows of one item, in table order. -/
def revList (s : Store) (itemId : Nat) : List Revision :=
  s.revisions.filter (fun r => r.itemId == itemId)

/-- The revision numbers of one item, in table order. -/
def revNumbers (s : Store) (itemId : Nat) : List Nat :=
  (revList s itemId).map (fun r => r.revisionNumber)

/-- The item-level effect of an accepted revision: take the new content and,
when the item stands in `revision_requested`, drive the
`revision_requested → pending_review` transition, clearing the prior
decision fields (spec §4.2). -/
def applyRevision (newContent : String) (j : AirlockItem) : AirlockItem :=
  if j.status = .revision_requested then
    { j with
      status := .pending_review
      version := j.version + 1
      content := newContent
      reviewedBy := none
      rejectionReason := none }
  else { j with content := newContent, version := j.version + 1 }

/-- Modelled from the spec: `recordRevision` of spec §4.3 (backend not in the
source tree).  Assigns the next sequential `revisionNumber`, updates the
item's content, and — when the item stands in `revision_requested` — drives
the `revision_requested → pending_review` transition (spec §4.2). -/
def recordRevision (sink : AuditEvent → Bool) (s : Store) (itemId : Nat)
    (newContent changesSummary actor : String) : Except AirlockError Store :=
  match findItem s itemId with
  | none => .error .NotFound
  | some _ =>
    let n := (revList s itemId).length
    let rev : Revision :=
      { itemId := itemId, revisionNumber := n, newContent := newContent,
        changesSummary := changesSummary, createdBy := actor }
    .ok (emitAudit sink
      { s with
        items := updateItem s.items itemId (applyRevision newContent)
        revisions := s.revisions ++ [rev] }
      { eventType := "revision_recorded", entityType := "airlock_item",
        entityId := itemId, actorId := actor, action := "record_revision" })

/-- Modelled from the spec: `addFeedback` of spec §4.3 (backend not in the
source tree).  Always succeeds when the item exists, in any review state. -/
def addFeedback (sink : AuditEvent → Bool) (s : Store) (itemId : Nat)
    (ftype providedBy : String) : Except AirlockError Store :=
  match findItem s itemId with
  | none => .error .NotFound
  | some _ =>
    .ok (emitAudit sink
      { s with
        feedbackRecords := s.feedbackRecords ++
          [{ id := s.nextId, itemId := itemId, feedbackType := ftype,
             providedBy := providedBy, status := .active, resolvedBy := none }]
        nextId := s.nextId + 1 }
      { eventType := "feedback_submitted", entityType := "airlock_feedback",
        entityId := s.nextId, actorId := providedBy, action := "add_feedback" })

/-- Look a feedback record up by id. -/
def findFeedback (s : Store) (fid : Nat) : Option Feedback :=
  s.feedbackRecords.find? (fun f => f.id == fid)

/-- The row-level effect of resolving feedback record `fid`. -/
def resolveUpd (fid : Nat) (actor : String) (g : Feedback) : Feedback :=
  if g.id = fid then { g with status := .resolved, resolvedBy := some actor } else g

/-- Modelled from the spec: `resolveFeedback` of spec §4.3 (backend not in the
source tree).  Idempotent: an already-resolved record is returned as-is with
no further mutation and no further audit event. -/
def resolveFeedback (sink : AuditEvent → Bool) (s : Store) (fid : Nat)
    (actor : String) : Except AirlockError Store :=
  match findFeedback s fid with
  | none => .error .NotFound
  | some f =>
    if f.status = .resolved then .ok s
    else
      .ok (emitAudit sink
        { s with feedbackRecords := s.feedbackRecords.map (resolveUpd fid actor) }
        { eventType := "feedback_resolved", entityType := "airlock_feedback",
          entityId := fid, actorId := actor, action := "resolve_feedback" })

/-- The operations of the Review Item Store and the Feedback & Revision
Ledger. -/
inductive Op
  | submit (ss sid ctype title content : String)
  | decide (itemId expectedVersion : Nat) (d : Decision) (actor : String)
  | recordRevision (itemId : Nat) (newContent changesSummary actor : String)
  | addFeedback (itemId : Nat) (ftype providedBy : String)
  | resolveFeedback (fid : Nat) (actor : String)
deriving DecidableEq, Repr

/-- Run one operation, propagating its error. -/
def runOp (sink : AuditEvent → Bool) (s : Store) : Op → Except AirlockError Store
  | .submit ss sid ct t c => submit sink s ss sid ct t c
  | .decide i v d a => decide sink s i v d a
  | .recordRevision i nc cs a => recordRevision sink s i nc cs a
  | .addFeedback i ft p => addFeedback sink s i ft p
  | .resolveFeedback f a => resolveFeedback sink s f a

/-- The error an operation reports, if any. -/
def opError (sink : AuditEvent → Bool) (s : Store) (op : Op) : Option AirlockError :=
  match runOp sink s op with
  | .ok _ => none
  | .error e => some e

/-- Run one operation; a rejected operation leaves the store unchanged. -/
def stepOp (sink : AuditEvent → Bool) (s : Store) (op : Op) : Store :=
  match runOp sink s op with
  | .ok s' => s'
  | .error _ => s

/-- Run a sequence of operations. -/
def runOps (sink : AuditEvent → Bool) (s : Store) (ops : List Op) : Store :=
  ops.foldl (stepOp sink) s

/-- Every row id the store has handed out lies below `nextId`; fresh ids are
therefore genuinely fresh. -/
def IdsBounded (s : Store) : Prop :=
  (∀ i ∈ s.items, i.id < s.nextId) ∧ (∀ r ∈ s.revisions, r.itemId < s.nextId)

/-- The revision numbers of every item form the gapless ascending sequence
`0, 1, ..., n-1` (spec §3; backed by `UNIQUE(airlock_item_id, revision_number)`
in src/unnamed/part_017 line 88). -/
def RevNumsOk (s : Store) : Prop :=
  ∀ id, revNumbers s id = List.range (revNumbers s id).length

/-- The store invariant carried through every operation. -/
def StoreInv (s : Store) : Prop := IdsBounded s ∧ RevNumsOk s

/-- An audit sink that always delivers. -/
def sinkOk : AuditEvent → Bool := fun _ => true

/-- An audit sink whose deliveries always fail (audit collaborator down). -/
def sinkDown : AuditEvent → Bool := fun _ => false

/-- A concrete submission, for witnesses. -/
def opSubmit0 : Op := .submit "ideation" "idea-1" "creative_asset" "Idea" "body"

/-- The store after one submission, for witnesses. -/
def sW : Store := stepOp sinkOk emptyStore opSubmit0

/-- The item `opSubmit0` creates, for witnesses. -/
def itemW : AirlockItem :=
  { id := 0, sourceService := "ideation", sourceId := "idea-1",
    contentType := "creative_asset", title := "Idea", content := "body",
    status := .pending_review, version := 0, reviewedBy := none,
    rejectionReason := none }

/-- The store after approving the submitted item (this appends the decision's
feedback record with id 1), for witnesses. -/
def sApprove : Store := stepOp sinkOk sW (.decide 0 0 .approve "r1")

/-- The store after resolving that feedback record, for witnesses. -/
def sResolved : Store := stepOp sinkOk sApprove (.resolveFeedback 1 "r2")

end Airlock

namespace Hub

/-- A persisted chat message event, after `airlock_chat_messages`
(src/unnamed/part_017 lines 47-60) restricted to the fields the ordering
claims observe. -/
structure Msg where
  senderId : Nat
  content : String
deriving DecidableEq, Repr

/-- One live connection to a room: `view` is the transcript the participant
has observed (initial page plus streamed events, in arrival order); `notices`
are the ephemeral typing signals it has observed as `(sender, isTyping)`
pairs. -/
structure Participant where
  pid : Nat
  view : List Msg
  notices : List (Nat × Bool)
deriving DecidableEq, Repr

/-- Modelled from the spec: the Collaboration Hub room state (spec §4.4; the
hub service is not in the source tree).  `transcript` is the persisted,
server-ordered message list; `typingTimers` maps a typing participant to the
ticks left before the hub synthesizes `typing=false`. -/
structure Room where
  transcript : List Msg
  participants : List Participant
  typingTimers : List (Nat × Nat)
deriving DecidableEq, Repr

/-- A room with no history and no connections. -/
def emptyRoom : Room := { transcript := [], participants := [], typingTimers := [] }

/-- The typing idle window, in ticks; the UI client uses the same 3-second
window (src/frontend/universal-airlock-ui/ChatInterface.jsx lines 136-151). -/
def typingTimeoutTicks : Nat := 3

/-- Whether a participant holds a live connection. -/
def connected (r : Room) (pid : Nat) : Bool :=
  r.participants.any (fun p => p.pid == pid)

/-- Persist a message and fan it out to every connected participant,
including the sender (spec §4.4: echo for optimistic-UI reconciliation). -/
def broadcastMsg (r : Room) (m : Msg) : Room :=
  { r with
    transcript := r.transcript ++ [m]
    participants := r.participants.map (fun p => { p with view := p.view ++ [m] }) }

/-- Deliver an ephemeral typing signal to every participant other than the
sender. -/
def notifyOthers (ps : List Participant) (sender : Nat) (b : Bool) :
    List Participant :=
  ps.map (fun p =>
    if p.pid = sender then p else { p with notices := p.notices ++ [(sender, b)] })

/-- Arm (or re-arm) a participant's typing timer. -/
def setTimer (ts : List (Nat × Nat)) (pid t : Nat) : List (Nat × Nat) :=
  (pid, t) :: ts.filter (fun e => !(e.1 == pid))

/-- Drop a participant's typing timer. -/
def clearTimer (ts : List (Nat × Nat)) (pid : Nat) : List (Nat × Nat) :=
  ts.filter (fun e => !(e.1 == pid))

/-- The ticks left on a participant's typing timer, if armed. -/
def lookupTimer (r : Room) (pid : Nat) : Option Nat :=
  (r.typingTimers.find? (fun e => e.1 == pid)).map (fun e => e.2)

/-- One clock tick: timers at one tick or less expire, and for each expiring
timer the hub synthesizes a `typing=false` to the other participants; the
remaining timers count down.  Typing traffic never touches the transcript. -/
def tickRoom (r : Room) : Room :=
  let fired := r.typingTimers.filter (fun e => e.2 ≤ 1)
  let live := (r.typingTimers.filter (fun e => 1 < e.2)).map (fun e => (e.1, e.2 - 1))
  { r with
    participants := fired.foldl (fun ps e => notifyOthers ps e.1 false) r.participants
    typingTimers := live }

/-- The room-facing events of spec §4.4, plus the hub clock. -/
inductive RoomOp
  | join (pid : Nat)
  | disconnect (pid : Nat)
  | sendMessage (pid : Nat) (content : String)
  | typingSignal (pid : Nat) (isTyping : Bool)
  | tick
deriving DecidableEq, Repr

/-- Modelled from the spec: the Collaboration Hub protocol of spec §4.4 (hub
service not in the source tree).  Joining (or re-joining) hands the
participant the current transcript as its initial page; a message is
persisted first and then fanned out; typing signals are ephemeral; a
disconnect affects only that participant. -/
def applyRoomOp (r : Room) : RoomOp → Room
  | .join pid =>
    { r with
      participants := r.participants.filter (fun p => !(p.pid == pid)) ++
        [{ pid := pid, view := r.transcript, notices := [] }] }
  | .disconnect pid =>
    { r with
      participants := r.participants.filter (fun p => !(p.pid == pid))
      typingTimers := clearTimer r.typingTimers pid }
  | .sendMessage pid content =>
    if connected r pid then broadcastMsg r { senderId := pid, content := content } else r
  | .typingSignal pid b =>
    if connected r pid then
      { r with
        participants := notifyOthers r.participants pid b
        typingTimers :=
          if b then setTimer r.typingTimers pid typingTimeoutTicks
          else clearTimer r.typingTimers pid }
    else r
  | .tick => tickRoom r

/-- Run a sequence of room events. -/
def runRoom (r : Room) (ops : List RoomOp) : Room := ops.foldl applyRoomOp r

/-- A concrete room with two connected participants and one message, for
witnesses. -/
def roomW : Room :=
  runRoom emptyRoom [.join 1, .join 2, .sendMessage 1 "hello"]

/-- The audited hub state: the room together with the hub's delivered audit
events and its logged audit gaps (spec §4.5). -/
structure HubState where
  room : Room
  auditLog : List Airlock.AuditEvent
  auditGaps : List Airlock.AuditEvent
deriving DecidableEq, Repr

/-- Modelled from the spec: the hub side of the Audit Emitter (spec §4.5,
service not in the source tree) — a failed delivery is recorded as a local
audit gap and never surfaces an error to the hub. -/
def hubEmit (sink : Airlock.AuditEvent → Bool) (hs : HubState)
    (e : Airlock.AuditEvent) : HubState :=
  if sink e then { hs with auditLog := hs.auditLog ++ [e] }
  else { hs with auditGaps := hs.auditGaps ++ [e] }

/-- The audit event a room event triggers, if any: among hub events, exactly
a persisted chat message — a `sendMessage` from a connected participant — is
an audit trigger (spec §4.5); typing and presence traffic is ephemeral and
not audited. -/
def roomOpEvent (r : Room) : RoomOp → Option Airlock.AuditEvent
  | .sendMessage pid _ =>
    if connected r pid then
      some { eventType := "chat_message", entityType := "airlock_chat_message",
             entityId := r.transcript.length, actorId := toString pid,
             action := "send_message" }
    else none
  | _ => none

/-- Modelled from the spec: one audited hub step (spec §4.4/§4.5) — apply
the room event and emit its audit event, if any; the room outcome never
consults the sink. -/
def stepRoomAudited (sink : Airlock.AuditEvent → Bool) (hs : HubState)
    (op : RoomOp) : HubState :=
  match roomOpEvent hs.room op with
  | some e => hubEmit sink { hs with room := applyRoomOp hs.room op } e
  | none => { hs with room := applyRoomOp hs.room op }

end Hub

namespace Schema

/-- A row of `airlock_items` (src/unnamed/part_017 lines 12-34), restricted
to the primary key the foreign keys point at. -/
structure ItemRow where
  id : Nat
deriving DecidableEq, Repr

/-- A row of `airlock_chat_sessions` (src/unnamed/part_017 lines 36-45):
`airlock_item_id` is NOT NULL and REFERENCES `airlock_items(id)` ON DELETE
CASCADE. -/
structure SessionRow where
  id : Nat
  airlockItemId : Nat
deriving DecidableEq, Repr

/-- A row of `airlock_chat_messages` (src/unnamed/part_017 lines 47-60):
`session_id` is NOT NULL and REFERENCES `airlock_chat_sessions(id)` ON
DELETE CASCADE. -/
structure MessageRow where
  id : Nat
  sessionId : Nat
deriving DecidableEq, Repr

/-- A row of `airlock_feedback` (src/unnamed/part_017 lines 62-75):
`airlock_item_id` is NOT NULL and REFERENCES `airlock_items(id)` ON DELETE
CASCADE. -/
structure FeedbackRow where
  id : Nat
  airlockItemId : Nat
deriving DecidableEq, Repr

/-- A row of `airlock_revisions` (src/unnamed/part_017 lines 77-89):
`airlock_item_id` is NOT NULL and REFERENCES `airlock_items(id)` ON DELETE
CASCADE. -/
structure RevisionRow where
  id : Nat
  airlockItemId : Nat
  revisionNumber : Nat
deriving DecidableEq, Repr

/-- The airlock tables of src/unnamed/part_017, keyed as declared there. -/
structure DB where
  airlock_items : List ItemRow
  airlock_chat_sessions : List SessionRow
  airlock_chat_messages : List MessageRow
  airlock_feedback : List FeedbackRow
  airlock_revisions : List RevisionRow
deriving DecidableEq, Repr

/-- The empty database. -/
def emptyDB : DB :=
  { airlock_items := [], airlock_chat_sessions := [], airlock_chat_messages := [],
    airlock_feedback := [], airlock_revisions := [] }

/-- Whether an item row with this id exists. -/
def hasItem (db : DB) (iid : Nat) : Bool :=
  db.airlock_items.any (fun r => r.id == iid)

/-- Whether a session row with this id exists. -/
def hasSession (db : DB) (sid : Nat) : Bool :=
  db.airlock_chat_sessions.any (fun r => r.id == sid)

/-- The write operations the schema's constraints govern. -/
inductive DBOp
  | insertItem (id : Nat)
  | insertSession (id itemId : Nat)
  | insertMessage (id sessionId : Nat)
  | insertFeedback (id itemId : Nat)
  | insertRevision (id itemId revisionNumber : Nat)
  | deleteItem (id : Nat)
deriving DecidableEq, Repr

/-- The SQL semantics of the DDL of src/unnamed/part_017: an insert whose
NOT NULL foreign key has no referent is rejected (the database refuses the
row), and deleting an item cascades per ON DELETE CASCADE — its chat
sessions, the messages of those sessions, its feedback rows and its revision
rows are removed in the same statement. -/
def applyDBOp (db : DB) : DBOp → DB
  | .insertItem i =>
    { db with airlock_items := db.airlock_items ++ [{ id := i }] }
  | .insertSession i iid =>
    if hasItem db iid then
      { db with airlock_chat_sessions :=
          db.airlock_chat_sessions ++ [{ id := i, airlockItemId := iid }] }
    else db
  | .insertMessage i sid =>
    if hasSession db sid then
      { db with airlock_chat_messages :=
          db.airlock_chat_messages ++ [{ id := i, sessionId := sid }] }
    else db
  | .insertFeedback i iid =>
    if hasItem db iid then
      { db with airlock_feedback :=
          db.airlock_feedback ++ [{ id := i, airlockItemId := iid }] }
    else db
  | .insertRevision i iid n =>
    if hasItem db iid then
      { db with airlock_revisions :=
          db.airlock_revisions ++ [{ id := i, airlockItemId := iid, revisionNumber := n }] }
    else db
  | .deleteItem iid =>
    let deadSessions := db.airlock_chat_sessions.filter (fun srow => srow.airlockItemId == iid)
    { airlock_items := db.airlock_items.filter (fun r => !(r.id == iid))
      airlock_chat_sessions :=
        db.airlock_chat_sessions.filter (fun srow => !(srow.airlockItemId == iid))
      airlock_chat_messages := db.airlock_chat_messages.filter
        (fun m => !(deadSessions.any (fun srow => srow.id == m.sessionId)))
      airlock_feedback := db.airlock_feedback.filter (fun f => !(f.airlockItemId == iid))
      airlock_revisions := db.airlock_revisions.filter (fun rv => !(rv.airlockItemId == iid)) }

/-- Referential integrity: every dependent row references an existing parent
(messages via an existing session). -/
def RefIntegrity (db : DB) : Prop :=
  (∀ srow ∈ db.airlock_chat_sessions, hasItem db srow.airlockItemId = true)
  ∧ (∀ m ∈ db.airlock_chat_messages, hasSession db m.sessionId = true)
  ∧ (∀ f ∈ db.airlock_feedback, hasItem db f.airlockItemId = true)
  ∧ (∀ rv ∈ db.airlock_revisions, hasItem db rv.airlockItemId = true)

/-- Run a sequence of database operations. -/
def runDB (db : DB) (ops : List DBOp) : DB := ops.foldl applyDBOp db

/-- A concrete database with one item and each kind of dependent row, for
witnesses. -/
def dbW : DB :=
  runDB emptyDB
    [.insertItem 7, .insertSession 1 7, .insertMessage 2 1,
     .insertFeedback 3 7, .insertRevision 4 7 0]

end Schema

namespace Airlock

theorem emitAudit_items (sink : AuditEvent → Bool) (s : Store) (e : AuditEvent) :
    (emitAudit sink s e).items = s.items := by
  unfold emitAudit; split <;> rfl

theorem emitAudit_revisions (sink : AuditEvent → Bool) (s : Store) (e : AuditEvent) :
    (emitAudit sink s e).revisions = s.revisions := by
  unfold emitAudit; split <;> rfl

theorem emitAudit_feedbackRecords (sink : AuditEvent → Bool) (s : Store) (e : AuditEvent) :
    (emitAudit sink s e).feedbackRecords = s.feedbackRecords := by
  unfold emitAudit; split <;> rfl

theorem emitAudit_nextId (sink : AuditEvent → Bool) (s : Store) (e : AuditEvent) :
    (emitAudit sink s e).nextId = s.nextId := by
  unfold emitAudit; split <;> rfl

theorem find?_append_some {α : Type} {p : α → Bool} {l₁ l₂ : List α} {a : α}
    (h : l₁.find? p = some a) : (l₁ ++ l₂).find? p = some a := by
  rw [List.find?_append, h]; rfl

theorem find?_none_of_filter_nil {α : Type} {p q : α → Bool} {l : List α}
    (hpq : ∀ a, q a = true → p a = true) (h : l.filter p = []) : l.find? q = none := by
  induction l with
  | nil => rfl
  | cons a t ih =>
    rw [List.filter_cons] at h
    by_cases hpa : p a = true
    · simp [hpa] at h
    · have hqa : q a = false := by
        cases hq : q a with
        | false => rfl
        | true => exact absurd (hpq a hq) hpa
      rw [List.find?_cons_of_neg _ (by simp [hqa])]
      exact ih (by simpa [hpa] using h)

theorem findItem_id {s : Store} {id : Nat} {i : AirlockItem}
    (h : findItem s id = some i) : i.id = id := by
  have := List.find?_some h
  simpa using this

theorem findItem_mem {s : Store} {id : Nat} {i : AirlockItem}
    (h : findItem s id = some i) : i ∈ s.items :=
  List.mem_of_find?_eq_some h

theorem applyDecision_id (d : Decision) (a : String) (j : AirlockItem) :
    (applyDecision d a j).id = j.id := rfl

theorem applyDecision_status (d : Decision) (a : String) (j : AirlockItem) :
    (applyDecision d a j).status = Decision.target d := rfl

theorem applyDecision_version (d : Decision) (a : String) (j : AirlockItem) :
    (applyDecision d a j).version = j.version + 1 := rfl

theorem applyRevision_id (c : String) (j : AirlockItem) :
    (applyRevision c j).id = j.id := by
  unfold applyRevision; split <;> rfl

theorem find?_update {items : List AirlockItem} {itemId id : Nat}
    {f : AirlockItem → AirlockItem} (hf : ∀ j, (f j).id = j.id) :
    (updateItem items itemId f).find? (fun j => j.id == id) =
      (items.find? (fun j => j.id == id)).map
        (fun j => if j.id = itemId then f j else j) := by
  unfold updateItem
  rw [List.find?_map]
  have hp : ((fun j : AirlockItem => j.id == id) ∘
      (fun j => if j.id = itemId then f j else j)) = (fun j : AirlockItem => j.id == id) := by
    funext j
    by_cases hj : j.id = itemId <;> simp [hj, hf]
  rw [hp]

theorem findItem_update {s : Store} {itemId id : Nat} {f : AirlockItem → AirlockItem}
    (hf : ∀ j, (f j).id = j.id) {items' : List AirlockItem}
    (hs : items' = updateItem s.items itemId f) {s' : Store} (hi : s'.items = items') :
    findItem s' id = (findItem s id).map (fun j => if j.id = itemId then f j else j) := by
  unfold findItem
  rw [hi, hs]
  exact find?_update hf

theorem stepOp_eq_of_ok {sink : AuditEvent → Bool} {s s' : Store} {op : Op}
    (h : runOp sink s op = .ok s') : stepOp sink s op = s' := by
  unfold stepOp; rw [h]

theorem stepOp_eq_of_error {sink : AuditEvent → Bool} {s : Store} {op : Op}
    {e : AirlockError} (h : runOp sink s op = .error e) : stepOp sink s op = s := by
  unfold stepOp; rw [h]

end Airlock

namespace Airlock

theorem commitDecision_items (sink : AuditEvent → Bool) (s : Store) (itemId : Nat)
    (d : Decision) (a : String) :
    (commitDecision sink s itemId d a).items =
      updateItem s.items itemId (applyDecision d a) := by
  unfold commitDecision preDecision
  cases hft : Decision.feedbackType d <;> simp [hft, emitAudit_items]

theorem commitDecision_revisions (sink : AuditEvent → Bool) (s : Store) (itemId : Nat)
    (d : Decision) (a : String) :
    (commitDecision sink s itemId d a).revisions = s.revisions := by
  unfold commitDecision preDecision
  cases hft : Decision.feedbackType d <;> simp [hft, emitAudit_revisions]

theorem commitDecision_nextId (sink : AuditEvent → Bool) (s : Store) (itemId : Nat)
    (d : Decision) (a : String) :
    s.nextId ≤ (commitDecision sink s itemId d a).nextId := by
  unfold commitDecision preDecision
  cases hft : Decision.feedbackType d <;> simp [hft, emitAudit_nextId]

theorem decide_conflict {s : Store} {itemId v : Nat} {i : AirlockItem}
    (sink : AuditEvent → Bool) (d : Decision) (a : String)
    (hf : findItem s itemId = some i) (hv : i.version ≠ v) :
    Airlock.decide sink s itemId v d a = .error .Conflict := by
  unfold Airlock.decide
  rw [hf]
  simp [hv]

theorem decide_invalid {s : Store} {itemId v : Nat} {i : AirlockItem}
    (sink : AuditEvent → Bool) (d : Decision) (a : String)
    (hf : findItem s itemId = some i) (hv : i.version = v)
    (he : allowedEdge i.status (Decision.target d) = false) :
    Airlock.decide sink s itemId v d a = .error .InvalidTransition := by
  unfold Airlock.decide
  rw [hf]
  simp [hv, he]

theorem decide_missing_reason {s : Store} {itemId v : Nat} {i : AirlockItem}
    (sink : AuditEvent → Bool) (r : String) (a : String)
    (hf : findItem s itemId = some i) (hv : i.version = v)
    (he : allowedEdge i.status .rejected = true) (hr : isBlank r = true) :
    Airlock.decide sink s itemId v (.reject r) a = .error .MissingRejectionReason := by
  unfold Airlock.decide
  rw [hf]
  simp [hv, Decision.target, he, hr]

theorem decide_ok_eq {s : Store} {itemId v : Nat} {i : AirlockItem}
    (sink : AuditEvent → Bool) (d : Decision) (a : String)
    (hf : findItem s itemId = some i) (hv : i.version = v)
    (he : allowedEdge i.status (Decision.target d) = true)
    (hr : ∀ r, d = .reject r → isBlank r = false) :
    Airlock.decide sink s itemId v d a = .ok (commitDecision sink s itemId d a) := by
  unfold Airlock.decide
  rw [hf]
  cases d with
  | reject r => simp [hv, he, hr r rfl]
  | claim => simp [hv, he]
  | approve => simp [hv, he]
  | requestChanges => simp [hv, he]

theorem decide_ok_inv {sink : AuditEvent → Bool} {s s' : Store} {itemId v : Nat}
    {d : Decision} {a : String}
    (hd : Airlock.decide sink s itemId v d a = .ok s') :
    ∃ j, findItem s itemId = some j ∧ j.version = v
      ∧ allowedEdge j.status (Decision.target d) = true
      ∧ s' = commitDecision sink s itemId d a := by
  unfold Airlock.decide at hd
  cases hfi : findItem s itemId with
  | none => rw [hfi] at hd; exact absurd hd (by simp)
  | some j =>
    rw [hfi] at hd
    by_cases hv : j.version = v
    · by_cases he : allowedEdge j.status (Decision.target d) = true
      · refine ⟨j, rfl, hv, he, ?_⟩
        cases d with
        | reject r =>
          by_cases hr : isBlank r = true
          · simp [hv, he, hr] at hd
          · simp [hv, he, hr] at hd; exact hd.symm
        | claim => simp [hv, he] at hd; exact hd.symm
        | approve => simp [hv, he] at hd; exact hd.symm
        | requestChanges => simp [hv, he] at hd; exact hd.symm
      · simp [hv, he] at hd
    · simp [hv] at hd

end Airlock

namespace Airlock

/-- Claim C2: a decision carrying a stale `expectedVersion` (older than the
item's current version) fails with `Conflict` and leaves the store unchanged;
and when two decisions race with the same `expectedVersion`, the first to
apply succeeds, the second receives `Conflict`, and the item's final status
is the one the successful decision requested, at version `v + 1`. -/
theorem decide_optimistic_concurrency
    (sink sink2 : AuditEvent → Bool) (s : Store) (id v : Nat) (i : AirlockItem)
    (hfind : findItem s id = some i) (hv : i.version = v) :
    (∀ (ev : Nat) (d : Decision) (a : String), ev < v →
        Airlock.decide sink s id ev d a = .error .Conflict
        ∧ stepOp sink s (.decide id ev d a) = s)
    ∧ (∀ (d1 : Decision) (a1 : String) (s1 : Store) (d2 : Decision) (a2 : String),
        Airlock.decide sink s id v d1 a1 = .ok s1 →
        Airlock.decide sink2 s1 id v d2 a2 = .error .Conflict
        ∧ ∃ i1, findItem s1 id = some i1 ∧ i1.status = Decision.target d1
            ∧ i1.version = v + 1) := by
  constructor
  · intro ev d a hlt
    have hne : i.version ≠ ev := by omega
    have hconf := decide_conflict sink d a hfind hne
    exact ⟨hconf, stepOp_eq_of_error hconf⟩
  · intro d1 a1 s1 d2 a2 hok
    obtain ⟨j, hj, hjv, hje, hs1⟩ := decide_ok_inv hok
    have hij : i = j := by rw [hfind] at hj; exact Option.some.inj hj
    subst hij
    have hitems : s1.items = updateItem s.items id (applyDecision d1 a1) := by
      rw [hs1]; exact commitDecision_items ..
    have hfind1 : findItem s1 id =
        (findItem s id).map (fun j0 => if j0.id = id then applyDecision d1 a1 j0 else j0) :=
      findItem_update (applyDecision_id d1 a1) rfl hitems
    rw [hfind] at hfind1
    have hiid : i.id = id := findItem_id hfind
    simp only [Option.map_some'] at hfind1
    rw [if_pos hiid] at hfind1
    have hver1 : (applyDecision d1 a1 i).version = v + 1 := by
      rw [applyDecision_version, hv]
    refine ⟨?_, applyDecision d1 a1 i, hfind1, applyDecision_status .., hver1⟩
    exact decide_conflict sink2 d2 a2 hfind1 (by rw [hver1]; omega)

/-- Witness for C2: on the concrete one-item store, a second decision with
the already-consumed version 0 receives `Conflict`. -/
theorem decide_optimistic_concurrency_witness :
    Airlock.decide sinkOk (stepOp sinkOk sW (.decide 0 0 .approve "r1")) 0 0
      (.reject "no") "r2" = .error .Conflict := by
  have h := decide_optimistic_concurrency sinkOk sinkOk sW 0 0 itemW (by rfl) (by rfl)
  exact (h.2 .approve "r1" (stepOp sinkOk sW (.decide 0 0 .approve "r1"))
    (.reject "no") "r2" (by rfl)).1

/-- Claim C6: for an item in `pending_review` or `under_review`, a reject
whose reason trims to empty is refused with the 400-class
`MissingRejectionReason` and the store is unchanged; a reject succeeds only
with a non-empty reason. -/
theorem reject_requires_nonempty_reason
    (sink : AuditEvent → Bool) (s : Store) (id v : Nat) (i : AirlockItem) (a r : String)
    (hfind : findItem s id = some i) (hv : i.version = v)
    (hst : i.status = .pending_review ∨ i.status = .under_review) :
    (isBlank r = true →
      Airlock.decide sink s id v (.reject r) a = .error .MissingRejectionReason
      ∧ stepOp sink s (.decide id v (.reject r) a) = s)
    ∧ (∀ s', Airlock.decide sink s id v (.reject r) a = .ok s' → isBlank r = false) := by
  have he : allowedEdge i.status .rejected = true := by
    rcases hst with h | h <;> rw [h] <;> rfl
  constructor
  · intro htrim
    have herr := decide_missing_reason sink r a hfind hv he htrim
    exact ⟨herr, stepOp_eq_of_error herr⟩
  · intro s' hok
    cases hb : isBlank r with
    | false => rfl
    | true =>
      have herr := decide_missing_reason sink r a hfind hv he hb
      rw [herr] at hok
      exact absurd hok (by simp)

/-- Witness for C6: rejecting the concrete pending item with a
whitespace-only reason is refused. -/
theorem reject_requires_nonempty_reason_witness :
    Airlock.decide sinkOk sW 0 0 (.reject "  ") "r1" = .error .MissingRejectionReason := by
  have h := reject_requires_nonempty_reason sinkOk sW 0 0 itemW "r1" "  "
    (by rfl) (by rfl) (Or.inl (by rfl))
  exact (h.1 (by rfl)).1

end Airlock

namespace Airlock

theorem find?_map_of_pred_preserved {α : Type} {p : α → Bool} {g : α → α}
    (hg : ∀ x, p (g x) = p x) (l : List α) :
    (l.map g).find? p = (l.find? p).map g := by
  have hpg : p ∘ g = p := funext hg
  rw [List.find?_map, hpg]

theorem submit_dup {sink : AuditEvent → Bool} {s : Store} {ss sid ct t c : String}
    {i : AirlockItem} (h : findOpenItem s ss sid = some i) :
    submit sink s ss sid ct t c = .error (.DuplicateSubmission i.id) := by
  unfold submit
  rw [h]

theorem submit_ok_inv {sink : AuditEvent → Bool} {s s' : Store} {ss sid ct t c : String}
    (h : findOpenItem s ss sid = none) (hs : submit sink s ss sid ct t c = .ok s') :
    s'.items = s.items ++ [freshItem s ss sid ct t c]
    ∧ s'.revisions = s.revisions ++ [initialRevision s ss c]
    ∧ s'.nextId = s.nextId + 1 := by
  unfold submit at hs
  rw [h] at hs
  have hs' := (Except.ok.inj hs).symm
  subst hs'
  exact ⟨emitAudit_items .., emitAudit_revisions .., emitAudit_nextId ..⟩

/-- Claim C3: when no open item exists for a `(sourceService, sourceId)` pair,
a first submit stores exactly one item with that pair, and a second submit
while that item is open fails with `DuplicateSubmission` pointing at the
stored open item and leaves the store unchanged. -/
theorem submit_duplicate_rejected
    (sink sink2 : AuditEvent → Bool) (s s1 : Store) (ss sid ct t c ct2 t2 c2 : String)
    (hc : countPair s ss sid = 0)
    (h1 : submit sink s ss sid ct t c = .ok s1) :
    countPair s1 ss sid = 1
    ∧ ∃ i, findOpenItem s1 ss sid = some i
        ∧ i.sourceService = ss ∧ i.sourceId = sid ∧ Status.isTerminal i.status = false
        ∧ submit sink2 s1 ss sid ct2 t2 c2 = .error (.DuplicateSubmission i.id)
        ∧ stepOp sink2 s1 (.submit ss sid ct2 t2 c2) = s1 := by
  have hnil : s.items.filter
      (fun i => i.sourceService == ss && i.sourceId == sid) = [] :=
    List.length_eq_zero.mp hc
  have hfo : findOpenItem s ss sid = none := by
    unfold findOpenItem
    refine find?_none_of_filter_nil ?_ hnil
    intro a ha
    simp only [Bool.and_eq_true] at ha
    simp [ha.1]
  obtain ⟨hitems, hrevs, hnext⟩ := submit_ok_inv hfo h1
  have hfo1 : findOpenItem s1 ss sid = some (freshItem s ss sid ct t c) := by
    unfold findOpenItem
    rw [hitems, List.find?_append]
    unfold findOpenItem at hfo
    rw [hfo]
    simp [freshItem, Status.isTerminal]
  have hdup1 : submit sink2 s1 ss sid ct2 t2 c2
      = .error (.DuplicateSubmission (freshItem s ss sid ct t c).id) :=
    submit_dup hfo1
  constructor
  · unfold countPair
    rw [hitems, List.filter_append, hnil]
    simp [freshItem]
  · exact ⟨freshItem s ss sid ct t c, hfo1, rfl, rfl, rfl, hdup1,
      stepOp_eq_of_error hdup1⟩

/-- Witness for C3: the concrete second submission of `("ideation", "idea-1")`
is refused, pointing at the stored item 0, with exactly one item stored. -/
theorem submit_duplicate_rejected_witness :
    countPair sW "ideation" "idea-1" = 1
    ∧ submit sinkOk sW "ideation" "idea-1" "creative_asset" "Idea2" "b2"
        = .error (.DuplicateSubmission 0) := by
  have h := submit_duplicate_rejected sinkOk sinkOk emptyStore sW "ideation" "idea-1"
    "creative_asset" "Idea" "body" "creative_asset" "Idea2" "b2" (by rfl) (by rfl)
  refine ⟨h.1, ?_⟩
  obtain ⟨i, hfo, hss, hsid, hterm, hdup, hstep⟩ := h.2
  have hi : i = itemW := by
    rw [show findOpenItem sW "ideation" "idea-1" = some itemW from rfl] at hfo
    exact (Option.some.inj hfo).symm
  rw [hi] at hdup
  exact hdup

theorem findFeedback_id {s : Store} {fid : Nat} {f : Feedback}
    (h : findFeedback s fid = some f) : f.id = fid := by
  have := List.find?_some h
  simpa using this

/-- Claim C7: `resolveFeedback` is idempotent — a record already in
`resolved` status resolves to a no-op returning the current store (hence the
same observable state, with no further audit event in `auditLog` or
`auditGaps`), and a second resolve after any successful resolve returns the
first result unchanged. -/
theorem resolveFeedback_idempotent
    (sink sink2 : AuditEvent → Bool) (s : Store) (fid : Nat) (a a2 : String) :
    (∀ f, findFeedback s fid = some f → f.status = .resolved →
        resolveFeedback sink s fid a = .ok s)
    ∧ (∀ s1, resolveFeedback sink s fid a = .ok s1 →
        resolveFeedback sink2 s1 fid a2 = .ok s1) := by
  constructor
  · intro f hf hres
    unfold resolveFeedback
    rw [hf]
    simp [hres]
  · intro s1 hok
    unfold resolveFeedback at hok
    cases hf : findFeedback s fid with
    | none => rw [hf] at hok; exact absurd hok (by simp)
    | some f =>
      rw [hf] at hok
      by_cases hres : f.status = .resolved
      · simp only [hres, if_pos, Except.ok.injEq] at hok
        have hs1 : s = s1 := by simpa [hres] using hok
        subst hs1
        unfold resolveFeedback
        rw [hf]
        simp [hres]
      · have hok' : emitAudit sink
            { s with feedbackRecords := s.feedbackRecords.map (resolveUpd fid a) }
            { eventType := "feedback_resolved", entityType := "airlock_feedback",
              entityId := fid, actorId := a, action := "resolve_feedback" } = s1 := by
          simpa [hres] using hok
        have hg : ∀ x : Feedback,
            ((resolveUpd fid a x).id == fid) = (x.id == fid) := by
          intro x
          unfold resolveUpd
          by_cases hx : x.id = fid <;> simp [hx]
        have hfid : f.id = fid := findFeedback_id hf
        have hf1 : findFeedback s1 fid = some (resolveUpd fid a f) := by
          unfold findFeedback
          rw [← hok', emitAudit_feedbackRecords, find?_map_of_pred_preserved hg]
          unfold findFeedback at hf
          rw [hf]
          rfl
        have hres1 : (resolveUpd fid a f).status = .resolved := by
          unfold resolveUpd
          rw [if_pos hfid]
        unfold resolveFeedback
        rw [hf1]
        simp [hres1]

/-- Witness for C7: re-resolving the concrete resolved feedback record is a
no-op returning the store unchanged. -/
theorem resolveFeedback_idempotent_witness :
    resolveFeedback sinkOk sResolved 1 "r3" = .ok sResolved := by
  exact (resolveFeedback_idempotent sinkOk sinkOk sApprove 1 "r2" "r3").2
    sResolved (by rfl)

end Airlock

namespace Airlock

theorem emitAudit_audit_total (sink : AuditEvent → Bool) (s : Store) (e : AuditEvent) :
    ((emitAudit sink s e).auditLog ++ (emitAudit sink s e).auditGaps).Perm
      ((s.auditLog ++ s.auditGaps) ++ [e]) := by
  unfold emitAudit
  split
  · show ((s.auditLog ++ [e]) ++ s.auditGaps).Perm _
    rw [List.append_assoc, List.append_assoc]
    exact List.Perm.append_left _ List.perm_append_comm
  · show (s.auditLog ++ (s.auditGaps ++ [e])).Perm _
    rw [List.append_assoc]

theorem runOp_indep (s : Store) (op : Op) :
    (∃ e, ∀ sk : AuditEvent → Bool, runOp sk s op = .error e)
    ∨ (∃ c ev, ∀ sk : AuditEvent → Bool, runOp sk s op = .ok (emitAudit sk c ev))
    ∨ (∃ c, ∀ sk : AuditEvent → Bool, runOp sk s op = .ok c) := by
  cases op with
  | submit ss sid ct t c =>
    cases hfo : findOpenItem s ss sid with
    | some i =>
      exact .inl ⟨_, fun sk => by simp only [runOp]; unfold submit; rw [hfo]⟩
    | none =>
      exact .inr (.inl ⟨_, _, fun sk => by simp only [runOp]; unfold submit; rw [hfo]⟩)
  | decide itemId v d a =>
    cases hfi : findItem s itemId with
    | none =>
      exact .inl ⟨_, fun sk => by
        simp only [runOp]; unfold Airlock.decide; rw [hfi]⟩
    | some i =>
      by_cases hv : i.version = v
      · by_cases he : allowedEdge i.status (Decision.target d) = true
        · cases d with
          | reject r =>
            by_cases hr : isBlank r = true
            · exact .inl ⟨_, fun sk => by
                simp only [runOp]; unfold Airlock.decide; rw [hfi]
                simp [hv, he, hr]; rfl⟩
            · exact .inr (.inl ⟨_, _, fun sk => by
                simp only [runOp]; unfold Airlock.decide commitDecision; rw [hfi]
                simp [hv, he, hr]; rfl⟩)
          | claim =>
            exact .inr (.inl ⟨_, _, fun sk => by
              simp only [runOp]; unfold Airlock.decide commitDecision; rw [hfi]
              simp [hv, he]; rfl⟩)
          | approve =>
            exact .inr (.inl ⟨_, _, fun sk => by
              simp only [runOp]; unfold Airlock.decide commitDecision; rw [hfi]
              simp [hv, he]; rfl⟩)
          | requestChanges =>
            exact .inr (.inl ⟨_, _, fun sk => by
              simp only [runOp]; unfold Airlock.decide commitDecision; rw [hfi]
              simp [hv, he]; rfl⟩)
        · exact .inl ⟨_, fun sk => by
            simp only [runOp]; unfold Airlock.decide; rw [hfi]
            simp [hv, he]; rfl⟩
      · exact .inl ⟨_, fun sk => by
          simp only [runOp]; unfold Airlock.decide; rw [hfi]
          simp [hv]; rfl⟩
  | recordRevision itemId nc cs a =>
    cases hfi : findItem s itemId with
    | none =>
      exact .inl ⟨_, fun sk => by simp only [runOp]; unfold recordRevision; rw [hfi]⟩
    | some i =>
      exact .inr (.inl ⟨_, _, fun sk => by
        simp only [runOp]; unfold recordRevision; rw [hfi]⟩)
  | addFeedback itemId ft p =>
    cases hfi : findItem s itemId with
    | none =>
      exact .inl ⟨_, fun sk => by simp only [runOp]; unfold addFeedback; rw [hfi]⟩
    | some i =>
      exact .inr (.inl ⟨_, _, fun sk => by
        simp only [runOp]; unfold addFeedback; rw [hfi]⟩)
  | resolveFeedback fid a =>
    cases hff : findFeedback s fid with
    | none =>
      exact .inl ⟨_, fun sk => by simp only [runOp]; unfold resolveFeedback; rw [hff]⟩
    | some f =>
      by_cases hres : f.status = .resolved
      · exact .inr (.inr ⟨s, fun sk => by
          simp only [runOp]; unfold resolveFeedback; rw [hff]; simp [hres]⟩)
      · exact .inr (.inl ⟨_, _, fun sk => by
          simp only [runOp]; unfold resolveFeedback; rw [hff]
          simp [hres]; rfl⟩)

/-- Sink-independence of the Store/Ledger operations: same reported error,
same primary state, same combined audit record for any two audit sinks. -/
theorem store_audit_indep
    (sink1 sink2 : AuditEvent → Bool) (s : Store) (op : Op) :
    opError sink1 s op = opError sink2 s op
    ∧ (stepOp sink1 s op).items = (stepOp sink2 s op).items
    ∧ (stepOp sink1 s op).revisions = (stepOp sink2 s op).revisions
    ∧ (stepOp sink1 s op).feedbackRecords = (stepOp sink2 s op).feedbackRecords
    ∧ ((stepOp sink1 s op).auditLog ++ (stepOp sink1 s op).auditGaps).Perm
        ((stepOp sink2 s op).auditLog ++ (stepOp sink2 s op).auditGaps) := by
  rcases runOp_indep s op with ⟨e, he⟩ | ⟨c, ev, hok⟩ | ⟨c, hok⟩
  · rw [stepOp_eq_of_error (he sink1), stepOp_eq_of_error (he sink2)]
    refine ⟨?_, rfl, rfl, rfl, List.Perm.refl _⟩
    unfold opError
    rw [he sink1, he sink2]
  · rw [stepOp_eq_of_ok (hok sink1), stepOp_eq_of_ok (hok sink2)]
    refine ⟨?_, ?_, ?_, ?_, ?_⟩
    · unfold opError
      rw [hok sink1, hok sink2]
    · rw [emitAudit_items, emitAudit_items]
    · rw [emitAudit_revisions, emitAudit_revisions]
    · rw [emitAudit_feedbackRecords, emitAudit_feedbackRecords]
    · exact (emitAudit_audit_total sink1 c ev).trans (emitAudit_audit_total sink2 c ev).symm
  · rw [stepOp_eq_of_ok (hok sink1), stepOp_eq_of_ok (hok sink2)]
    refine ⟨?_, rfl, rfl, rfl, List.Perm.refl _⟩
    unfold opError
    rw [hok sink1, hok sink2]

end Airlock

namespace Airlock

theorem recordRevision_ok_inv {sink : AuditEvent → Bool} {s s' : Store} {itemId : Nat}
    {nc cs a : String} (hd : recordRevision sink s itemId nc cs a = .ok s') :
    (∃ j, findItem s itemId = some j)
    ∧ s'.items = updateItem s.items itemId (applyRevision nc)
    ∧ s'.revisions = s.revisions ++
        [{ itemId := itemId, revisionNumber := (revList s itemId).length,
           newContent := nc, changesSummary := cs, createdBy := a }]
    ∧ s'.nextId = s.nextId := by
  unfold recordRevision at hd
  cases hfi : findItem s itemId with
  | none => rw [hfi] at hd; exact absurd hd (by simp)
  | some j =>
    rw [hfi] at hd
    have hs' := (Except.ok.inj hd).symm
    subst hs'
    exact ⟨⟨j, rfl⟩, emitAudit_items .., emitAudit_revisions .., emitAudit_nextId ..⟩

theorem addFeedback_ok_inv {sink : AuditEvent → Bool} {s s' : Store} {itemId : Nat}
    {ft p : String} (hd : addFeedback sink s itemId ft p = .ok s') :
    s'.items = s.items ∧ s'.revisions = s.revisions ∧ s'.nextId = s.nextId + 1 := by
  unfold addFeedback at hd
  cases hfi : findItem s itemId with
  | none => rw [hfi] at hd; exact absurd hd (by simp)
  | some j =>
    rw [hfi] at hd
    have hs' := (Except.ok.inj hd).symm
    subst hs'
    exact ⟨emitAudit_items .., emitAudit_revisions .., emitAudit_nextId ..⟩

theorem resolveFeedback_ok_inv {sink : AuditEvent → Bool} {s s' : Store} {fid : Nat}
    {a : String} (hd : resolveFeedback sink s fid a = .ok s') :
    s'.items = s.items ∧ s'.revisions = s.revisions ∧ s'.nextId = s.nextId := by
  unfold resolveFeedback at hd
  cases hff : findFeedback s fid with
  | none => rw [hff] at hd; exact absurd hd (by simp)
  | some f =>
    rw [hff] at hd
    by_cases hres : f.status = .resolved
    · have hss : s = s' := by simpa [hres] using hd
      subst hss
      exact ⟨rfl, rfl, rfl⟩
    · have hs' : emitAudit sink
          { s with feedbackRecords := s.feedbackRecords.map (resolveUpd fid a) }
          { eventType := "feedback_resolved", entityType := "airlock_feedback",
            entityId := fid, actorId := a, action := "resolve_feedback" } = s' := by
        simpa [hres] using hd
      subst hs'
      exact ⟨emitAudit_items .., emitAudit_revisions .., emitAudit_nextId ..⟩

theorem applyRevision_status (nc : String) (j : AirlockItem) :
    (applyRevision nc j).status =
      if j.status = .revision_requested then .pending_review else j.status := by
  by_cases h : j.status = .revision_requested
  · rw [if_pos h]; unfold applyRevision; rw [if_pos h]
  · rw [if_neg h]; unfold applyRevision; rw [if_neg h]

theorem find?_singleton_some {α : Type} {p : α → Bool} {x a : α}
    (h : [x].find? p = some a) : a = x := by
  by_cases hp : p x = true
  · rw [List.find?_cons_of_pos _ hp] at h
    exact (Option.some.inj h).symm
  · rw [List.find?_cons_of_neg _ hp] at h
    exact absurd h (by simp)

theorem findItem_stepOp_status (sink : AuditEvent → Bool) (s : Store) (op : Op) (id : Nat)
    {i i' : AirlockItem} (h : findItem s id = some i)
    (h' : findItem (stepOp sink s op) id = some i') :
    i'.status = i.status ∨ StatusStep i.status i'.status := by
  cases hrun : runOp sink s op with
  | error e =>
    rw [stepOp_eq_of_error hrun, h] at h'
    exact .inl (by rw [← Option.some.inj h'])
  | ok s1 =>
    rw [stepOp_eq_of_ok hrun] at h'
    cases op with
    | submit ss sid ct t c =>
      have hsub : submit sink s ss sid ct t c = .ok s1 := hrun
      cases hfo : findOpenItem s ss sid with
      | some e0 => rw [submit_dup hfo] at hsub; exact absurd hsub (by simp)
      | none =>
        obtain ⟨hitems, hrev2, hnext2⟩ := submit_ok_inv hfo hsub
        unfold findItem at h h'
        rw [hitems, List.find?_append, h] at h'
        have hii : i = i' := by simpa using h'
        exact .inl (by rw [← hii])
    | decide itemId v d a =>
      have hd : Airlock.decide sink s itemId v d a = .ok s1 := hrun
      obtain ⟨j, hj, hjv, hje, hs1⟩ := decide_ok_inv hd
      have hitems : s1.items = updateItem s.items itemId (applyDecision d a) := by
        rw [hs1]; exact commitDecision_items ..
      have hf1 : findItem s1 id = (findItem s id).map
          (fun j0 => if j0.id = itemId then applyDecision d a j0 else j0) :=
        findItem_update (applyDecision_id d a) rfl hitems
      rw [h] at hf1
      simp only [Option.map_some'] at hf1
      rw [h'] at hf1
      have hgi := Option.some.inj hf1
      by_cases hid : i.id = itemId
      · have hiid : i.id = id := findItem_id h
        have hidid : id = itemId := by rw [← hiid, hid]
        rw [hidid] at h
        have hij : i = j := by rw [h] at hj; exact Option.some.inj hj
        right
        unfold StatusStep
        rw [hgi, if_pos hid, applyDecision_status, hij]
        exact hje
      · left
        rw [hgi, if_neg hid]
    | recordRevision itemId nc cs a =>
      have hd : recordRevision sink s itemId nc cs a = .ok s1 := hrun
      obtain ⟨hex2, hitems, hrev2, hnext2⟩ := recordRevision_ok_inv hd
      have hf1 : findItem s1 id = (findItem s id).map
          (fun j0 => if j0.id = itemId then applyRevision nc j0 else j0) :=
        findItem_update (applyRevision_id nc) rfl hitems
      rw [h] at hf1
      simp only [Option.map_some'] at hf1
      rw [h'] at hf1
      have hgi := Option.some.inj hf1
      by_cases hid : i.id = itemId
      · rw [if_pos hid] at hgi
        by_cases hrr : i.status = .revision_requested
        · right
          unfold StatusStep
          rw [hgi, applyRevision_status, if_pos hrr, hrr]
          rfl
        · left
          rw [hgi, applyRevision_status, if_neg hrr]
      · left
        rw [hgi, if_neg hid]
    | addFeedback itemId ft p =>
      have hd : addFeedback sink s itemId ft p = .ok s1 := hrun
      obtain ⟨hitems, hrev2, hnext2⟩ := addFeedback_ok_inv hd
      left
      unfold findItem at h h'
      rw [hitems, h] at h'
      rw [← Option.some.inj h']
    | resolveFeedback fid a =>
      have hd : resolveFeedback sink s fid a = .ok s1 := hrun
      obtain ⟨hitems, hrev2, hnext2⟩ := resolveFeedback_ok_inv hd
      left
      unfold findItem at h h'
      rw [hitems, h] at h'
      rw [← Option.some.inj h']

theorem findItem_stepOp_new (sink : AuditEvent → Bool) (s : Store) (op : Op) (id : Nat)
    {i' : AirlockItem} (h : findItem s id = none)
    (h' : findItem (stepOp sink s op) id = some i') :
    i'.status = .pending_review := by
  cases hrun : runOp sink s op with
  | error e =>
    rw [stepOp_eq_of_error hrun, h] at h'
    exact absurd h' (by simp)
  | ok s1 =>
    rw [stepOp_eq_of_ok hrun] at h'
    cases op with
    | submit ss sid ct t c =>
      have hsub : submit sink s ss sid ct t c = .ok s1 := hrun
      cases hfo : findOpenItem s ss sid with
      | some e0 => rw [submit_dup hfo] at hsub; exact absurd hsub (by simp)
      | none =>
        obtain ⟨hitems, hrev2, hnext2⟩ := submit_ok_inv hfo hsub
        unfold findItem at h h'
        rw [hitems, List.find?_append, h] at h'
        have h'' : [freshItem s ss sid ct t c].find?
            (fun i => i.id == id) = some i' := by simpa using h'
        rw [find?_singleton_some h'']
        rfl
    | decide itemId v d a =>
      have hd : Airlock.decide sink s itemId v d a = .ok s1 := hrun
      obtain ⟨j, hj, hjv, hje, hs1⟩ := decide_ok_inv hd
      have hitems : s1.items = updateItem s.items itemId (applyDecision d a) := by
        rw [hs1]; exact commitDecision_items ..
      have hf1 : findItem s1 id = (findItem s id).map
          (fun j0 => if j0.id = itemId then applyDecision d a j0 else j0) :=
        findItem_update (applyDecision_id d a) rfl hitems
      rw [h] at hf1
      simp only [Option.map_none'] at hf1
      rw [h'] at hf1
      exact absurd hf1 (by simp)
    | recordRevision itemId nc cs a =>
      have hd : recordRevision sink s itemId nc cs a = .ok s1 := hrun
      obtain ⟨hex2, hitems, hrev2, hnext2⟩ := recordRevision_ok_inv hd
      have hf1 : findItem s1 id = (findItem s id).map
          (fun j0 => if j0.id = itemId then applyRevision nc j0 else j0) :=
        findItem_update (applyRevision_id nc) rfl hitems
      rw [h] at hf1
      simp only [Option.map_none'] at hf1
      rw [h'] at hf1
      exact absurd hf1 (by simp)
    | addFeedback itemId ft p =>
      have hd : addFeedback sink s itemId ft p = .ok s1 := hrun
      obtain ⟨hitems, hrev2, hnext2⟩ := addFeedback_ok_inv hd
      unfold findItem at h h'
      rw [hitems, h] at h'
      exact absurd h' (by simp)
    | resolveFeedback fid a =>
      have hd : resolveFeedback sink s fid a = .ok s1 := hrun
      obtain ⟨hitems, hrev2, hnext2⟩ := resolveFeedback_ok_inv hd
      unfold findItem at h h'
      rw [hitems, h] at h'
      exact absurd h' (by simp)

theorem runOps_status_reach (sink : AuditEvent → Bool) (ops : List Op) (s : Store)
    (id : Nat) :
    ∀ i', findItem (runOps sink s ops) id = some i' →
      (∃ i, findItem s id = some i ∧ ReachableStatus i.status i'.status)
      ∨ ReachableStatus Status.pending_review i'.status := by
  induction ops generalizing s with
  | nil =>
    intro i' h'
    exact .inl ⟨i', h', Relation.ReflTransGen.refl⟩
  | cons op t ih =>
    intro i' h'
    have h'' : findItem (runOps sink (stepOp sink s op) t) id = some i' := h'
    rcases ih (stepOp sink s op) i' h'' with ⟨i1, h1, hr⟩ | hr
    · cases hfi : findItem s id with
      | some i0 =>
        rcases findItem_stepOp_status sink s op id hfi h1 with heq | hstep
        · exact .inl ⟨i0, rfl, by rw [← heq]; exact hr⟩
        · exact .inl ⟨i0, rfl, Relation.ReflTransGen.head hstep hr⟩
      | none =>
        have hnew : i1.status = .pending_review := findItem_stepOp_new sink s op id hfi h1
        right
        rw [← hnew]
        exact hr
    · exact .inr hr

/-- Claim C1: from the initial (empty) store, every observable item status is
reachable from `pending_review` along the §4.2 edges only; any single
accepted operation moves an item's status along a §4.2 edge or leaves it
unchanged; and a requested transition off the edges fails with
`InvalidTransition`, leaving the store unchanged. -/
theorem status_transitions_follow_allowed_edges (sink : AuditEvent → Bool) :
    (∀ (ops : List Op) (id : Nat) (i' : AirlockItem),
        findItem (runOps sink emptyStore ops) id = some i' →
        ReachableStatus .pending_review i'.status)
    ∧ (∀ (s : Store) (op : Op) (id : Nat) (i i' : AirlockItem),
        findItem s id = some i → findItem (stepOp sink s op) id = some i' →
        i'.status = i.status ∨ StatusStep i.status i'.status)
    ∧ (∀ (s : Store) (id v : Nat) (d : Decision) (a : String) (i : AirlockItem),
        findItem s id = some i → i.version = v →
        allowedEdge i.status (Decision.target d) = false →
        Airlock.decide sink s id v d a = .error .InvalidTransition
        ∧ stepOp sink s (.decide id v d a) = s) := by
  refine ⟨?_, ?_, ?_⟩
  · intro ops id i' h'
    rcases runOps_status_reach sink ops emptyStore id i' h' with ⟨i, hi, _⟩ | hr
    · exact absurd hi (by simp [emptyStore, findItem])
    · exact hr
  · intro s op id i i' h h'
    exact findItem_stepOp_status sink s op id h h'
  · intro s id v d a i hf hv he
    have herr := decide_invalid sink d a hf hv he
    exact ⟨herr, stepOp_eq_of_error herr⟩

/-- Witness for C1: the concrete submit-then-approve run ends in `approved`,
reachable from `pending_review`. -/
theorem status_transitions_follow_allowed_edges_witness :
    ReachableStatus .pending_review .approved := by
  exact (status_transitions_follow_allowed_edges sinkOk).1
    [opSubmit0, .decide 0 0 .approve "r1"] 0
    { id := 0, sourceService := "ideation", sourceId := "idea-1",
      contentType := "creative_asset", title := "Idea", content := "body",
      status := .approved, version := 1, reviewedBy := some "r1",
      rejectionReason := none }
    (by rfl)

end Airlock

namespace Airlock

theorem revNumbers_append_one {s s' : Store} {rid n : Nat} {nc cs a : String}
    (h : s'.revisions = s.revisions ++
      [{ itemId := rid, revisionNumber := n, newContent := nc,
         changesSummary := cs, createdBy := a }]) (id : Nat) :
    revNumbers s' id = revNumbers s id ++ (if rid = id then [n] else []) := by
  unfold revNumbers revList
  rw [h, List.filter_append, List.map_append]
  congr 1
  by_cases hr : rid = id
  · rw [if_pos hr]
    simp [List.filter_cons, hr]
  · rw [if_neg hr]
    simp [List.filter_cons, hr]

theorem revNumbers_fresh (s : Store)
    (hbr : ∀ r ∈ s.revisions, r.itemId < s.nextId) :
    revNumbers s s.nextId = [] := by
  unfold revNumbers revList
  have hnil : s.revisions.filter (fun r => r.itemId == s.nextId) = [] := by
    rw [List.filter_eq_nil_iff]
    intro r hr
    have hlt := hbr r hr
    simp
    omega
  rw [hnil]
  rfl

theorem idsBounded_updateItem {items : List AirlockItem} {itemId n : Nat}
    {f : AirlockItem → AirlockItem} (hf : ∀ j, (f j).id = j.id)
    (hb : ∀ i ∈ items, i.id < n) :
    ∀ i ∈ updateItem items itemId f, i.id < n := by
  intro i hi
  unfold updateItem at hi
  obtain ⟨j, hj, hji⟩ := List.mem_map.mp hi
  by_cases hjid : j.id = itemId
  · rw [if_pos hjid] at hji
    rw [← hji, hf]
    exact hb j hj
  · rw [if_neg hjid] at hji
    rw [← hji]
    exact hb j hj

theorem range_snoc_eq (L : List Nat) (hL : L = List.range L.length) :
    L ++ [L.length] = List.range (L ++ [L.length]).length := by
  rw [List.length_append, List.length_singleton, List.range_succ, ← hL]

theorem storeInv_empty : StoreInv emptyStore := by
  refine ⟨⟨?_, ?_⟩, ?_⟩
  · intro i hi; exact absurd hi (by simp [emptyStore])
  · intro r hr; exact absurd hr (by simp [emptyStore])
  · intro id; rfl

theorem storeInv_step (sink : AuditEvent → Bool) (s : Store) (op : Op)
    (hinv : StoreInv s) : StoreInv (stepOp sink s op) := by
  cases hrun : runOp sink s op with
  | error e => rw [stepOp_eq_of_error hrun]; exact hinv
  | ok s1 =>
    rw [stepOp_eq_of_ok hrun]
    obtain ⟨⟨hbi, hbr⟩, hrn⟩ := hinv
    cases op with
    | submit ss sid ct t c =>
      have hsub : submit sink s ss sid ct t c = .ok s1 := hrun
      cases hfo : findOpenItem s ss sid with
      | some e0 => rw [submit_dup hfo] at hsub; exact absurd hsub (by simp)
      | none =>
        obtain ⟨hitems, hrevs, hnext⟩ := submit_ok_inv hfo hsub
        refine ⟨⟨?_, ?_⟩, ?_⟩
        · intro i hi
          rw [hitems] at hi
          rw [hnext]
          rcases List.mem_append.mp hi with hm | hm
          · exact Nat.lt_succ_of_lt (hbi i hm)
          · have hif : i = freshItem s ss sid ct t c := by simpa using hm
            rw [hif]
            exact Nat.lt_succ_self _
        · intro r hrm
          rw [hrevs] at hrm
          rw [hnext]
          rcases List.mem_append.mp hrm with hm | hm
          · exact Nat.lt_succ_of_lt (hbr r hm)
          · have hir : r = initialRevision s ss c := by simpa using hm
            rw [hir]
            exact Nat.lt_succ_self _
        · intro id
          have hrevs2 : s1.revisions = s.revisions ++
              [{ itemId := s.nextId, revisionNumber := 0, newContent := c,
                 changesSummary := "original submission", createdBy := ss }] := hrevs
          have hone := revNumbers_append_one hrevs2 id
          by_cases hid : s.nextId = id
          · subst hid
            have hempty : revNumbers s s.nextId = [] := revNumbers_fresh s hbr
            rw [hone, if_pos rfl, hempty]
            rfl
          · rw [hone, if_neg hid, List.append_nil]
            exact hrn id
    | decide itemId v d a =>
      have hd : Airlock.decide sink s itemId v d a = .ok s1 := hrun
      obtain ⟨j, hj, hjv, hje, hs1⟩ := decide_ok_inv hd
      have hitems : s1.items = updateItem s.items itemId (applyDecision d a) := by
        rw [hs1]; exact commitDecision_items ..
      have hrevs : s1.revisions = s.revisions := by
        rw [hs1]; exact commitDecision_revisions ..
      have hnext : s.nextId ≤ s1.nextId := by
        rw [hs1]; exact commitDecision_nextId ..
      refine ⟨⟨?_, ?_⟩, ?_⟩
      · intro i hi
        rw [hitems] at hi
        exact lt_of_lt_of_le
          (idsBounded_updateItem (applyDecision_id d a) hbi i hi) hnext
      · intro r hrm
        rw [hrevs] at hrm
        exact lt_of_lt_of_le (hbr r hrm) hnext
      · intro id
        unfold revNumbers revList
        rw [hrevs]
        exact hrn id
    | recordRevision itemId nc cs a =>
      have hd : recordRevision sink s itemId nc cs a = .ok s1 := hrun
      obtain ⟨⟨j, hj⟩, hitems, hrevs, hnext⟩ := recordRevision_ok_inv hd
      have hjlt : itemId < s.nextId := by
        rw [← findItem_id hj]
        exact hbi j (findItem_mem hj)
      refine ⟨⟨?_, ?_⟩, ?_⟩
      · intro i hi
        rw [hitems] at hi
        rw [hnext]
        exact idsBounded_updateItem (applyRevision_id nc) hbi i hi
      · intro r hrm
        rw [hrevs] at hrm
        rw [hnext]
        rcases List.mem_append.mp hrm with hm | hm
        · exact hbr r hm
        · have hir : r =
              ({ itemId := itemId, revisionNumber := (revList s itemId).length,
                 newContent := nc, changesSummary := cs, createdBy := a } : Revision) := by
            simpa using hm
          rw [hir]
          exact hjlt
      · intro id
        have hone := revNumbers_append_one hrevs id
        have hlen : (revList s itemId).length = (revNumbers s itemId).length :=
          (List.length_map ..).symm
        by_cases hid : itemId = id
        · subst hid
          rw [hone, if_pos rfl, hlen]
          exact range_snoc_eq _ (hrn itemId)
        · rw [hone, if_neg hid, List.append_nil]
          exact hrn id
    | addFeedback itemId ft p =>
      have hd : addFeedback sink s itemId ft p = .ok s1 := hrun
      obtain ⟨hitems, hrevs, hnext⟩ := addFeedback_ok_inv hd
      refine ⟨⟨?_, ?_⟩, ?_⟩
      · intro i hi
        rw [hitems] at hi
        rw [hnext]
        exact Nat.lt_succ_of_lt (hbi i hi)
      · intro r hrm
        rw [hrevs] at hrm
        rw [hnext]
        exact Nat.lt_succ_of_lt (hbr r hrm)
      · intro id
        unfold revNumbers revList
        rw [hrevs]
        exact hrn id
    | resolveFeedback fid a =>
      have hd : resolveFeedback sink s fid a = .ok s1 := hrun
      obtain ⟨hitems, hrevs, hnext⟩ := resolveFeedback_ok_inv hd
      refine ⟨⟨?_, ?_⟩, ?_⟩
      · intro i hi
        rw [hitems] at hi
        rw [hnext]
        exact hbi i hi
      · intro r hrm
        rw [hrevs] at hrm
        rw [hnext]
        exact hbr r hrm
      · intro id
        unfold revNumbers revList
        rw [hrevs]
        exact hrn id

theorem storeInv_runOps (sink : AuditEvent → Bool) (ops : List Op) (s : Store)
    (hinv : StoreInv s) : StoreInv (runOps sink s ops) := by
  induction ops generalizing s with
  | nil => exact hinv
  | cons op t ih => exact ih (stepOp sink s op) (storeInv_step sink s op hinv)

/-- Claim C4: in every store reachable from the initial store, each item's
revision numbers form exactly the gapless strictly-ascending sequence
`0, 1, ..., n-1` (so `(itemId, revisionNumber)` pairs are unique), and every
successful `recordRevision` appends precisely the next sequential number, so
two racing calls, applied in either serialization order, obtain distinct
consecutive numbers with no duplicate and no gap. -/
theorem revision_numbers_gapless (sink : AuditEvent → Bool) (ops : List Op) :
    (∀ id, revNumbers (runOps sink emptyStore ops) id
        = List.range (revNumbers (runOps sink emptyStore ops) id).length)
    ∧ (∀ (s s1 : Store) (id : Nat) (nc cs a : String),
        recordRevision sink s id nc cs a = .ok s1 →
        revNumbers s1 id = revNumbers s id ++ [(revNumbers s id).length]) := by
  constructor
  · exact (storeInv_runOps sink ops emptyStore storeInv_empty).2
  · intro s s1 id nc cs a hok
    obtain ⟨hex, hitems, hrevs, hnext⟩ := recordRevision_ok_inv hok
    have hone := revNumbers_append_one hrevs id
    have hlen : (revList s id).length = (revNumbers s id).length :=
      (List.length_map ..).symm
    rw [hone, if_pos rfl, hlen]

/-- Witness for C4: on the concrete one-item store (revision 0 recorded at
submission), a recorded revision takes number 1, giving the sequence
`[0, 1]`. -/
theorem revision_numbers_gapless_witness :
    revNumbers (stepOp sinkOk sW (.recordRevision 0 "b2" "fix" "agent")) 0 = [0, 1] := by
  have h := (revision_numbers_gapless sinkOk []).2 sW
    (stepOp sinkOk sW (.recordRevision 0 "b2" "fix" "agent")) 0 "b2" "fix" "agent"
    (by rfl)
  exact h.trans (by rfl)

end Airlock

namespace Hub

theorem fold_notify_views (l : List (Nat × Nat)) (ps : List Participant)
    (T : List Msg) (h : ∀ p ∈ ps, p.view = T) :
    ∀ p ∈ l.foldl (fun ps e => notifyOthers ps e.1 false) ps, p.view = T := by
  induction l generalizing ps with
  | nil => exact h
  | cons e rest ih =>
    apply ih
    intro p hp
    unfold notifyOthers at hp
    obtain ⟨q, hq, hqe⟩ := List.mem_map.mp hp
    by_cases hqp : q.pid = e.1
    · rw [if_pos hqp] at hqe
      rw [← hqe]
      exact h q hq
    · rw [if_neg hqp] at hqe
      rw [← hqe]
      show q.view = T
      exact h q hq

/-- Claim C5: every connected participant's observed message stream equals
the persisted transcript exactly — same total order, no gaps, no duplicates —
and this survives any sequence of joins (a late joiner first receives the
transcript, then the live stream), messages, typing traffic, ticks and
disconnects. -/
theorem room_views_match_transcript (r : Room) (ops : List RoomOp)
    (h : ∀ p ∈ r.participants, p.view = r.transcript) :
    ∀ p ∈ (runRoom r ops).participants, p.view = (runRoom r ops).transcript := by
  induction ops generalizing r with
  | nil => exact h
  | cons op t ih =>
    apply ih
    cases op with
    | join pid =>
      intro p hp
      simp only [applyRoomOp] at hp ⊢
      rcases List.mem_append.mp hp with hm | hm
      · exact h p (List.mem_of_mem_filter hm)
      · have hpj : p = { pid := pid, view := r.transcript, notices := [] } := by
          simpa using hm
        rw [hpj]
    | disconnect pid =>
      intro p hp
      simp only [applyRoomOp] at hp ⊢
      exact h p (List.mem_of_mem_filter hp)
    | sendMessage pid c =>
      intro p hp
      simp only [applyRoomOp] at hp ⊢
      by_cases hc : connected r pid = true
      · rw [if_pos hc] at hp ⊢
        unfold broadcastMsg at hp ⊢
        obtain ⟨q, hq, hqe⟩ := List.mem_map.mp hp
        rw [← hqe]
        show q.view ++ _ = r.transcript ++ _
        rw [h q hq]
      · rw [if_neg hc] at hp ⊢
        exact h p hp
    | typingSignal pid b =>
      intro p hp
      simp only [applyRoomOp] at hp ⊢
      by_cases hc : connected r pid = true
      · rw [if_pos hc] at hp ⊢
        unfold notifyOthers at hp
        obtain ⟨q, hq, hqe⟩ := List.mem_map.mp hp
        by_cases hqp : q.pid = pid
        · rw [if_pos hqp] at hqe
          rw [← hqe]
          exact h q hq
        · rw [if_neg hqp] at hqe
          rw [← hqe]
          show q.view = _
          exact h q hq
      · rw [if_neg hc] at hp ⊢
        exact h p hp
    | tick =>
      intro p hp
      exact fold_notify_views _ _ _ h p hp

/-- Witness for C5: the late joiner (pid 3) of the concrete room ends with a
view equal to the room transcript. -/
theorem room_views_match_transcript_witness :
    ({ pid := 3,
       view := [{ senderId := 1, content := "hello" },
                { senderId := 2, content := "hi" }],
       notices := [] } : Participant).view
      = (runRoom roomW [.join 3, .sendMessage 2 "hi"]).transcript := by
  exact room_views_match_transcript roomW [.join 3, .sendMessage 2 "hi"] (by decide)
    { pid := 3,
      view := [{ senderId := 1, content := "hello" },
               { senderId := 2, content := "hi" }],
      notices := [] }
    (by decide)

theorem fold_notify_pres (P : Participant → Prop)
    (hP : ∀ (q : Participant) (sdr : Nat) (b : Bool),
      P q → P { q with notices := q.notices ++ [(sdr, b)] }) :
    ∀ (l : List (Nat × Nat)) (ps : List Participant),
      (∀ q ∈ ps, P q) →
      ∀ q ∈ l.foldl (fun ps e => notifyOthers ps e.1 false) ps, P q := by
  intro l
  induction l with
  | nil => intro ps h q hq; exact h q hq
  | cons e rest ih =>
    intro ps h q hq
    apply ih (notifyOthers ps e.1 false) ?_ q hq
    intro q0 hq0
    unfold notifyOthers at hq0
    obtain ⟨q1, hq1, hq1e⟩ := List.mem_map.mp hq0
    by_cases hqe : q1.pid = e.1
    · rw [if_pos hqe] at hq1e
      rw [← hq1e]
      exact h q1 hq1
    · rw [if_neg hqe] at hq1e
      rw [← hq1e]
      exact hP q1 e.1 false (h q1 hq1)

theorem fold_notify_delivers {l : List (Nat × Nat)} {p t : Nat} (hmem : (p, t) ∈ l) :
    ∀ (ps : List Participant) (q : Participant),
      q ∈ l.foldl (fun ps e => notifyOthers ps e.1 false) ps →
      q.pid ≠ p → (p, false) ∈ q.notices := by
  induction l with
  | nil => exact absurd hmem (by simp)
  | cons e rest ih =>
    intro ps q hq hqp
    rcases List.mem_cons.mp hmem with he | he
    · have hep : e.1 = p := by rw [← he]
      have hbase : ∀ q0 ∈ notifyOthers ps e.1 false,
          q0.pid ≠ p → (p, false) ∈ q0.notices := by
        intro q0 hq0 hq0p
        unfold notifyOthers at hq0
        obtain ⟨q1, hq1, hq1e⟩ := List.mem_map.mp hq0
        by_cases hqe : q1.pid = e.1
        · exfalso
          apply hq0p
          rw [if_pos hqe] at hq1e
          rw [← hq1e, hqe, hep]
        · rw [if_neg hqe] at hq1e
          rw [← hq1e]
          show (p, false) ∈ q1.notices ++ [(e.1, false)]
          rw [hep]
          exact List.mem_append_right _ (by simp)
      exact fold_notify_pres (fun q0 => q0.pid ≠ p → (p, false) ∈ q0.notices)
        (fun q0 sdr b hPq hne => List.mem_append_left _ (hPq hne))
        rest (notifyOthers ps e.1 false) hbase q hq hqp
    · exact ih he (notifyOthers ps e.1 false) q hq hqp

theorem tick_fires {r : Room} {p t : Nat}
    (h : r.typingTimers.find? (fun e => e.1 == p) = some (p, t)) (ht : t ≤ 1) :
    ∀ q ∈ (tickRoom r).participants, q.pid ≠ p → (p, false) ∈ q.notices := by
  intro q hq hqp
  have hmem : (p, t) ∈ r.typingTimers.filter (fun e => e.2 ≤ 1) :=
    List.mem_filter.mpr ⟨List.mem_of_find?_eq_some h, decide_eq_true ht⟩
  exact fold_notify_delivers hmem r.participants q hq hqp

theorem findTimer_typingOn (r : Room) (p : Nat) (hc : connected r p = true) :
    (applyRoomOp r (.typingSignal p true)).typingTimers.find? (fun e => e.1 == p)
      = some (p, typingTimeoutTicks) := by
  simp only [applyRoomOp]
  rw [if_pos hc]
  show (setTimer r.typingTimers p typingTimeoutTicks).find? _ = _
  unfold setTimer
  rw [List.find?_cons_of_pos _ (by simp)]

theorem find?_cons_beq {l : List (Nat × Nat)} {e : Nat × Nat} {p : Nat} :
    (e :: l).find? (fun x => x.1 == p) =
      if e.1 = p then some e else l.find? (fun x => x.1 == p) := by
  by_cases h : e.1 = p
  · rw [if_pos h]
    exact List.find?_cons_of_pos _ (by simp [h])
  · rw [if_neg h]
    exact List.find?_cons_of_neg _ (by simp [h])

theorem findTimer_tick {ts : List (Nat × Nat)} {p t : Nat}
    (h : ts.find? (fun e => e.1 == p) = some (p, t + 2)) :
    ((ts.filter (fun e => 1 < e.2)).map (fun e => (e.1, e.2 - 1))).find?
      (fun e => e.1 == p) = some (p, t + 1) := by
  induction ts with
  | nil => exact absurd h (by simp)
  | cons e rest ih =>
    rw [find?_cons_beq] at h
    by_cases hp : e.1 = p
    · rw [if_pos hp] at h
      have he : e = (p, t + 2) := Option.some.inj h
      subst he
      have hcond : decide (1 < (p, t + 2).2) = true :=
        decide_eq_true (by show (1 : Nat) < t + 2; omega)
      rw [List.filter_cons, if_pos hcond, List.map_cons, find?_cons_beq,
        if_pos (show ((p, t + 2).1, (p, t + 2).2 - 1).1 = p from rfl)]
      rfl
    · rw [if_neg hp] at h
      rw [List.filter_cons]
      by_cases h2 : 1 < e.2
      · have hp2 : ¬((e.1, e.2 - 1).1 = p) := hp
        have hcond2 : decide (1 < e.2) = true := decide_eq_true h2
        rw [if_pos hcond2, List.map_cons, find?_cons_beq, if_neg hp2]
        exact ih h
      · have h2f : ¬(decide (1 < e.2) = true) := by
          simpa using h2
        rw [if_neg h2f]
        exact ih h

theorem applyRoomOp_typing_transcript (r : Room) (p : Nat) (b : Bool) :
    (applyRoomOp r (.typingSignal p b)).transcript = r.transcript := by
  simp only [applyRoomOp]
  split <;> rfl

/-- Claim C9: a participant who signals `typing=true` and then stays silent
for the whole idle window (`typingTimeoutTicks` ticks) causes the hub to
synthesize a `typing=false` that every other connected participant observes,
with no explicit signal from the sender in the run; and the typing traffic
never touches the persisted transcript. -/
theorem typing_auto_expiry (r : Room) (p : Nat) (hc : connected r p = true) :
    (∀ q ∈ (runRoom r
        (.typingSignal p true :: List.replicate typingTimeoutTicks .tick)).participants,
        q.pid ≠ p → (p, false) ∈ q.notices)
    ∧ (runRoom r
        (.typingSignal p true :: List.replicate typingTimeoutTicks .tick)).transcript
      = r.transcript := by
  have hred : runRoom r (.typingSignal p true :: List.replicate typingTimeoutTicks .tick)
      = tickRoom (tickRoom (tickRoom (applyRoomOp r (.typingSignal p true)))) := rfl
  have hf1 : (applyRoomOp r (.typingSignal p true)).typingTimers.find?
      (fun e => e.1 == p) = some (p, 1 + 2) := findTimer_typingOn r p hc
  have hf2 : (tickRoom (applyRoomOp r (.typingSignal p true))).typingTimers.find?
      (fun e => e.1 == p) = some (p, 0 + 2) := findTimer_tick hf1
  have hf3 : (tickRoom (tickRoom (applyRoomOp r (.typingSignal p true)))).typingTimers.find?
      (fun e => e.1 == p) = some (p, 0 + 1) := findTimer_tick hf2
  constructor
  · intro q hq hqp
    rw [hred] at hq
    exact tick_fires hf3 (by omega) q hq hqp
  · rw [hred]
    show (applyRoomOp r (.typingSignal p true)).transcript = r.transcript
    exact applyRoomOp_typing_transcript r p true

/-- Witness for C9: in the concrete room, participant 2 observes the
synthesized `typing=false` from participant 1 after the idle window. -/
theorem typing_auto_expiry_witness :
    (1, false) ∈
      ({ pid := 2,
         view := [{ senderId := 1, content := "hello" }],
         notices := [(1, true), (1, false)] } : Participant).notices := by
  have h := typing_auto_expiry roomW 1 (by decide)
  exact h.1
    { pid := 2, view := [{ senderId := 1, content := "hello" }],
      notices := [(1, true), (1, false)] }
    (by decide) (by decide)

end Hub

namespace Schema

theorem hasItem_insertItem (db : DB) (i iid : Nat) (h : hasItem db iid = true) :
    hasItem (applyDBOp db (.insertItem i)) iid = true := by
  simp only [applyDBOp]
  unfold hasItem at h ⊢
  rw [List.any_append, h]
  rfl

theorem refIntegrity_step (db : DB) (op : DBOp) (h : RefIntegrity db) :
    RefIntegrity (applyDBOp db op) := by
  obtain ⟨hs, hm, hf, hr⟩ := h
  cases op with
  | insertItem i =>
    refine ⟨?_, ?_, ?_, ?_⟩
    · intro srow hsr
      exact hasItem_insertItem db i srow.airlockItemId (hs srow hsr)
    · intro mrow hmr
      exact hm mrow hmr
    · intro frow hfr
      exact hasItem_insertItem db i frow.airlockItemId (hf frow hfr)
    · intro rrow hrr
      exact hasItem_insertItem db i rrow.airlockItemId (hr rrow hrr)
  | insertSession i iid =>
    by_cases hit : hasItem db iid = true
    · simp only [applyDBOp]
      rw [if_pos hit]
      refine ⟨?_, ?_, ?_, ?_⟩
      · intro srow hsr
        rcases List.mem_append.mp hsr with hm1 | hm1
        · exact hs srow hm1
        · have hrow : srow = { id := i, airlockItemId := iid } := by simpa using hm1
          rw [hrow]
          exact hit
      · intro mrow hmr
        have hold := hm mrow hmr
        unfold hasSession at hold ⊢
        rw [List.any_append, hold]
        rfl
      · intro frow hfr
        exact hf frow hfr
      · intro rrow hrr
        exact hr rrow hrr
    · simp only [applyDBOp]
      rw [if_neg hit]
      exact ⟨hs, hm, hf, hr⟩
  | insertMessage i sid =>
    by_cases hit : hasSession db sid = true
    · simp only [applyDBOp]
      rw [if_pos hit]
      refine ⟨?_, ?_, ?_, ?_⟩
      · intro srow hsr
        exact hs srow hsr
      · intro mrow hmr
        rcases List.mem_append.mp hmr with hm1 | hm1
        · exact hm mrow hm1
        · have hrow : mrow = { id := i, sessionId := sid } := by simpa using hm1
          rw [hrow]
          exact hit
      · intro frow hfr
        exact hf frow hfr
      · intro rrow hrr
        exact hr rrow hrr
    · simp only [applyDBOp]
      rw [if_neg hit]
      exact ⟨hs, hm, hf, hr⟩
  | insertFeedback i iid =>
    by_cases hit : hasItem db iid = true
    · simp only [applyDBOp]
      rw [if_pos hit]
      refine ⟨?_, ?_, ?_, ?_⟩
      · intro srow hsr
        exact hs srow hsr
      · intro mrow hmr
        exact hm mrow hmr
      · intro frow hfr
        rcases List.mem_append.mp hfr with hm1 | hm1
        · exact hf frow hm1
        · have hrow : frow = { id := i, airlockItemId := iid } := by simpa using hm1
          rw [hrow]
          exact hit
      · intro rrow hrr
        exact hr rrow hrr
    · simp only [applyDBOp]
      rw [if_neg hit]
      exact ⟨hs, hm, hf, hr⟩
  | insertRevision i iid n =>
    by_cases hit : hasItem db iid = true
    · simp only [applyDBOp]
      rw [if_pos hit]
      refine ⟨?_, ?_, ?_, ?_⟩
      · intro srow hsr
        exact hs srow hsr
      · intro mrow hmr
        exact hm mrow hmr
      · intro frow hfr
        exact hf frow hfr
      · intro rrow hrr
        rcases List.mem_append.mp hrr with hm1 | hm1
        · exact hr rrow hm1
        · have hrow : rrow = { id := i, airlockItemId := iid, revisionNumber := n } := by
            simpa using hm1
          rw [hrow]
          exact hit
    · simp only [applyDBOp]
      rw [if_neg hit]
      exact ⟨hs, hm, hf, hr⟩
  | deleteItem iid =>
    simp only [applyDBOp]
    refine ⟨?_, ?_, ?_, ?_⟩
    · intro srow hsr
      obtain ⟨hm1, hne⟩ := List.mem_filter.mp hsr
      have hold := hs srow hm1
      unfold hasItem at hold ⊢
      obtain ⟨row, hrow, hrid⟩ := List.any_eq_true.mp hold
      apply List.any_eq_true.mpr
      refine ⟨row, List.mem_filter.mpr ⟨hrow, ?_⟩, hrid⟩
      have hrideq : row.id = srow.airlockItemId := by simpa using hrid
      have hneq : srow.airlockItemId ≠ iid := by simpa using hne
      simp [hrideq, hneq]
    · intro mrow hmr
      obtain ⟨hm1, hnd⟩ := List.mem_filter.mp hmr
      have hold := hm mrow hm1
      unfold hasSession at hold ⊢
      obtain ⟨srow, hsrow, hsid⟩ := List.any_eq_true.mp hold
      apply List.any_eq_true.mpr
      refine ⟨srow, List.mem_filter.mpr ⟨hsrow, ?_⟩, hsid⟩
      by_contra hcon
      have hdead : srow ∈ db.airlock_chat_sessions.filter
          (fun s0 => s0.airlockItemId == iid) := by
        refine List.mem_filter.mpr ⟨hsrow, ?_⟩
        simpa using hcon
      have hany : (db.airlock_chat_sessions.filter
          (fun s0 => s0.airlockItemId == iid)).any
            (fun s0 => s0.id == mrow.sessionId) = true :=
        List.any_eq_true.mpr ⟨srow, hdead, hsid⟩
      simp [hany] at hnd
    · intro frow hfr
      obtain ⟨hm1, hne⟩ := List.mem_filter.mp hfr
      have hold := hf frow hm1
      unfold hasItem at hold ⊢
      obtain ⟨row, hrow, hrid⟩ := List.any_eq_true.mp hold
      apply List.any_eq_true.mpr
      refine ⟨row, List.mem_filter.mpr ⟨hrow, ?_⟩, hrid⟩
      have hrideq : row.id = frow.airlockItemId := by simpa using hrid
      have hneq : frow.airlockItemId ≠ iid := by simpa using hne
      simp [hrideq, hneq]
    · intro rrow hrr
      obtain ⟨hm1, hne⟩ := List.mem_filter.mp hrr
      have hold := hr rrow hm1
      unfold hasItem at hold ⊢
      obtain ⟨row, hrow, hrid⟩ := List.any_eq_true.mp hold
      apply List.any_eq_true.mpr
      refine ⟨row, List.mem_filter.mpr ⟨hrow, ?_⟩, hrid⟩
      have hrideq : row.id = rrow.airlockItemId := by simpa using hrid
      have hneq : rrow.airlockItemId ≠ iid := by simpa using hne
      simp [hrideq, hneq]

theorem refIntegrity_runDB (db : DB) (ops : List DBOp) (h : RefIntegrity db) :
    RefIntegrity (runDB db ops) := by
  induction ops generalizing db with
  | nil => exact h
  | cons op t ih => exact ih (applyDBOp db op) (refIntegrity_step db op h)

/-- Claim C10: with the DDL's foreign keys enforced, referential integrity —
every chat session, feedback row and revision row references an existing
item, and every chat message references an existing session — holds after
any sequence of operations, and deleting an item removes, in that same
operation, the item, all its sessions, all messages of those sessions, and
all its feedback and revision rows, so no orphaned dependent row is ever
observable. -/
theorem cascade_preserves_referential_integrity (db : DB) (hdb : RefIntegrity db) :
    (∀ ops, RefIntegrity (runDB db ops))
    ∧ ∀ iid,
        (∀ srow ∈ (applyDBOp db (.deleteItem iid)).airlock_chat_sessions,
            srow.airlockItemId ≠ iid)
        ∧ (∀ frow ∈ (applyDBOp db (.deleteItem iid)).airlock_feedback,
            frow.airlockItemId ≠ iid)
        ∧ (∀ rrow ∈ (applyDBOp db (.deleteItem iid)).airlock_revisions,
            rrow.airlockItemId ≠ iid)
        ∧ (∀ mrow ∈ (applyDBOp db (.deleteItem iid)).airlock_chat_messages,
            ∀ srow ∈ db.airlock_chat_sessions, srow.id = mrow.sessionId →
              srow.airlockItemId ≠ iid)
        ∧ (∀ row ∈ (applyDBOp db (.deleteItem iid)).airlock_items, row.id ≠ iid) := by
  constructor
  · intro ops
    exact refIntegrity_runDB db ops hdb
  · intro iid
    refine ⟨?_, ?_, ?_, ?_, ?_⟩
    · intro srow hsr
      obtain ⟨hm1, hne⟩ := List.mem_filter.mp hsr
      simpa using hne
    · intro frow hfr
      obtain ⟨hm1, hne⟩ := List.mem_filter.mp hfr
      simpa using hne
    · intro rrow hrr
      obtain ⟨hm1, hne⟩ := List.mem_filter.mp hrr
      simpa using hne
    · intro mrow hmr srow hsrow hsid
      obtain ⟨hm1, hnd⟩ := List.mem_filter.mp hmr
      intro hcon
      have hdead : srow ∈ db.airlock_chat_sessions.filter
          (fun s0 => s0.airlockItemId == iid) := by
        refine List.mem_filter.mpr ⟨hsrow, ?_⟩
        simpa using hcon
      have hany : (db.airlock_chat_sessions.filter
          (fun s0 => s0.airlockItemId == iid)).any
            (fun s0 => s0.id == mrow.sessionId) = true := by
        apply List.any_eq_true.mpr
        exact ⟨srow, hdead, by simpa using hsid⟩
      simp [hany] at hnd
    · intro row hrow
      obtain ⟨hm1, hne⟩ := List.mem_filter.mp hrow
      simpa using hne

/-- Witness for C10: the concrete populated database keeps referential
integrity across a delete-and-reinsert run. -/
theorem cascade_preserves_referential_integrity_witness :
    RefIntegrity (runDB dbW [.deleteItem 7, .insertItem 8, .insertSession 9 8]) := by
  exact (cascade_preserves_referential_integrity dbW
    ⟨by decide, by decide, by decide, by decide⟩).1
    [.deleteItem 7, .insertItem 8, .insertSession 9 8]

end Schema

namespace Hub

theorem hubEmit_room (sink : Airlock.AuditEvent → Bool) (hs : HubState)
    (e : Airlock.AuditEvent) : (hubEmit sink hs e).room = hs.room := by
  unfold hubEmit
  split <;> rfl

theorem stepRoomAudited_room (sink : Airlock.AuditEvent → Bool) (hs : HubState)
    (op : RoomOp) : (stepRoomAudited sink hs op).room = applyRoomOp hs.room op := by
  cases he : roomOpEvent hs.room op with
  | none =>
    unfold stepRoomAudited
    rw [he]
  | some e =>
    unfold stepRoomAudited
    rw [he, hubEmit_room]

theorem hubEmit_audit_total (sink : Airlock.AuditEvent → Bool) (hs : HubState)
    (e : Airlock.AuditEvent) :
    ((hubEmit sink hs e).auditLog ++ (hubEmit sink hs e).auditGaps).Perm
      ((hs.auditLog ++ hs.auditGaps) ++ [e]) := by
  unfold hubEmit
  split
  · show ((hs.auditLog ++ [e]) ++ hs.auditGaps).Perm _
    rw [List.append_assoc, List.append_assoc]
    exact List.Perm.append_left _ List.perm_append_comm
  · show (hs.auditLog ++ (hs.auditGaps ++ [e])).Perm _
    rw [List.append_assoc]

theorem stepRoomAudited_audit_indep (sink1 sink2 : Airlock.AuditEvent → Bool)
    (hs : HubState) (op : RoomOp) :
    ((stepRoomAudited sink1 hs op).auditLog
        ++ (stepRoomAudited sink1 hs op).auditGaps).Perm
      ((stepRoomAudited sink2 hs op).auditLog
        ++ (stepRoomAudited sink2 hs op).auditGaps) := by
  cases he : roomOpEvent hs.room op with
  | none =>
    unfold stepRoomAudited
    rw [he]
  | some e =>
    unfold stepRoomAudited
    rw [he]
    exact (hubEmit_audit_total sink1 _ e).trans (hubEmit_audit_total sink2 _ e).symm

end Hub

namespace Airlock

/-- Claim C8: audit delivery failure never fails nor alters the triggering
operation, across all three §4.5 triggers — state transitions and feedback
submissions (the Store/Ledger operations) and persisted chat messages (the
audited hub step): for any two audit sinks the operation reports the same
error (or none), the primary state is identical (items, revisions and
feedback records of the store; the room with its persisted transcript for
the hub), and the combined audit record (delivered log plus logged gaps)
holds the same events, so a failed delivery degrades to a logged gap rather
than being dropped or failing the operation. -/
theorem audit_failure_never_fails_operation
    (sink1 sink2 : AuditEvent → Bool) (s : Store) (op : Op) :
    opError sink1 s op = opError sink2 s op
    ∧ (stepOp sink1 s op).items = (stepOp sink2 s op).items
    ∧ (stepOp sink1 s op).revisions = (stepOp sink2 s op).revisions
    ∧ (stepOp sink1 s op).feedbackRecords = (stepOp sink2 s op).feedbackRecords
    ∧ ((stepOp sink1 s op).auditLog ++ (stepOp sink1 s op).auditGaps).Perm
        ((stepOp sink2 s op).auditLog ++ (stepOp sink2 s op).auditGaps)
    ∧ ∀ (hs : Hub.HubState) (rop : Hub.RoomOp),
        (Hub.stepRoomAudited sink1 hs rop).room = (Hub.stepRoomAudited sink2 hs rop).room
        ∧ ((Hub.stepRoomAudited sink1 hs rop).auditLog
              ++ (Hub.stepRoomAudited sink1 hs rop).auditGaps).Perm
            ((Hub.stepRoomAudited sink2 hs rop).auditLog
              ++ (Hub.stepRoomAudited sink2 hs rop).auditGaps) := by
  obtain ⟨h1, h2, h3, h4, h5⟩ := store_audit_indep sink1 sink2 s op
  refine ⟨h1, h2, h3, h4, h5, ?_⟩
  intro hs rop
  exact ⟨(Hub.stepRoomAudited_room sink1 hs rop).trans
      (Hub.stepRoomAudited_room sink2 hs rop).symm,
    Hub.stepRoomAudited_audit_indep sink1 sink2 hs rop⟩

end Airlock
